import Mathlib

/-!
Verification of the telemetry-analytics engine of the racepilot backend
(module app/routes/ai.py). The Python functions are shallowly embedded
over the rationals: Python floats become rationals, datetimes become
rational second counts, SQL rows become structures, and each detector
becomes a pure function over the lists it reads. Database reads appear
as list parameters and database writes as returned lists.
-/

namespace RacePilot

/-- Banker rounding of a rational to an integer, the semantics of the
Python builtin round (and of pandas Series.round): nearest integer,
ties to the even neighbour. -/
def pythonRound (x : ℚ) : ℤ :=
  if x - ⌊x⌋ < 1/2 then ⌊x⌋
  else if 1/2 < x - ⌊x⌋ then ⌊x⌋ + 1
  else if ⌊x⌋ % 2 = 0 then ⌊x⌋ else ⌊x⌋ + 1

/-- Python round with a decimal-place count, as in round(x, 1):
scale, banker-round, unscale. -/
def pythonRoundTo (x : ℚ) (n : ℕ) : ℚ :=
  (pythonRound (x * (10 : ℚ) ^ n) : ℚ) / (10 : ℚ) ^ n

/-- The Python float modulo operator x % m for a positive modulus:
the result is x - m * floor (x / m), always in [0, m). -/
def pymod (x m : ℚ) : ℚ :=
  x - m * (⌊x / m⌋ : ℤ)

-- ------------------------------
-- Signal Preprocessor (ai.py, unwrap_deg and movavg)
-- ------------------------------

/-- Offset update of one unwrap_deg iteration: subtract 360 when the
raw jump diff = d - last exceeds 180, add 360 when it is below -180,
otherwise keep the running offset. -/
def adjOffset (last offset d : ℚ) : ℚ :=
  if d - last > 180 then offset - 360
  else if d - last < -180 then offset + 360
  else offset

/-- Loop body of unwrap_deg: given the previous raw heading and the
running offset, process the remaining raw headings. Mirrors the
for-loop of unwrap_deg after its first iteration. -/
def unwrapGo : ℚ → ℚ → List ℚ → List ℚ
  | _, _, [] => []
  | last, offset, d :: rest =>
    (d + adjOffset last offset d) :: unwrapGo d (adjOffset last offset d) rest

/-- unwrap_deg from ai.py: unwrap heading values for continuous curves.
The first element passes through with offset 0; afterwards the offset
moves by -360 when the raw jump exceeds 180 and by +360 when it is
below -180. -/
def unwrap_deg : List ℚ → List ℚ
  | [] => []
  | d :: rest => d :: unwrapGo d 0 rest

/-- Accumulator update of one movavg iteration: add the current value
v = vals[i], and drop the value w places back once i >= w. -/
def accNext (vals : List ℚ) (w i : ℕ) (acc v : ℚ) : ℚ :=
  if w ≤ i then acc + v - vals.getD (i - w) 0 else acc + v

/-- Output element of one movavg iteration: the trailing average once
i >= w - 1, the raw value v = vals[i] before that (warm-up). -/
def outAt (w i : ℕ) (acc2 v : ℚ) : ℚ :=
  if w - 1 ≤ i then acc2 / (w : ℚ) else v

/-- Loop body of movavg, mirroring the enumerate loop: the first list
argument is the remaining suffix vals.drop i, so the head v is
vals[i]. -/
def movavgGo (vals : List ℚ) (w : ℕ) : List ℚ → ℕ → ℚ → List ℚ
  | [], _, _ => []
  | v :: rest, i, acc =>
    outAt w i (accNext vals w i acc v) v ::
      movavgGo vals w rest (i + 1) (accNext vals w i acc v)

/-- movavg from ai.py: simple moving average smoothing. Window w at
most 1 or an input shorter than w returns the input unchanged. -/
def movavg (vals : List ℚ) (w : ℕ) : List ℚ :=
  if w ≤ 1 ∨ vals.length < w then vals else movavgGo vals w vals 0 0

/-- The accumulator entering iteration i of the movavg loop: the sum
of the values at indices max (i - w) 0 through i - 1. -/
def accSpec (vals : List ℚ) (w i : ℕ) : ℚ :=
  ∑ k ∈ Finset.Ico (i - w) i, vals.getD k 0

-- ------------------------------
-- Maneuver Detector (ai.py, detect_maneuvers)
-- ------------------------------

/-- A telemetry track point as the detector reads it: timestamp as
rational seconds, position, and optional speed/course over ground.
The source coalesces missing sog/cog with float(x or 0.0). -/
structure TPt where
  ts : ℚ
  lat : ℚ
  lon : ℚ
  sog : Option ℚ
  cog : Option ℚ

/-- The DetectRequest parameter bag of the detector, with the source
defaults twd=None, theta_min_deg=55, max_window_sec=20,
smooth_window=3, min_sog_kn=1, speed_drop_kn=0.8. -/
structure DetectParams where
  twd : Option ℚ
  thetaMinDeg : ℚ
  maxWindowSec : ℚ
  smoothWindow : ℕ
  minSogKn : ℚ
  speedDropKn : ℚ

/-- The ts series of the points. -/
def tsList (pts : List TPt) : List ℚ := pts.map (fun p => p.ts)

/-- The sog series, with float(p.sog or 0.0) coalescing. -/
def sogList (pts : List TPt) : List ℚ := pts.map (fun p => p.sog.getD 0)

/-- The cog series, with float(p.cog or 0.0) coalescing. -/
def cogList (pts : List TPt) : List ℚ := pts.map (fun p => p.cog.getD 0)

/-- Timestamp at index i. -/
def tsAt (pts : List TPt) (i : ℕ) : ℚ := (tsList pts).getD i 0

/-- sog_s of the detector: smoothed speed series. -/
def sogS (P : DetectParams) (pts : List TPt) : List ℚ :=
  movavg (sogList pts) P.smoothWindow

/-- cog_s of the detector: unwrapped then smoothed heading series. -/
def cogS (P : DetectParams) (pts : List TPt) : List ℚ :=
  movavg (unwrap_deg (cogList pts)) P.smoothWindow

/-- Inner lookahead loop of the detector: advance j while j < n and
ts[j] - start_t is at most max_window_sec. The fuel argument bounds
the iteration count; the caller passes pts.length, which always
suffices since j never passes pts.length. -/
def windowEndGo (pts : List TPt) (t0 maxw : ℚ) : ℕ → ℕ → ℕ
  | 0, j => j
  | fuel + 1, j =>
    if j < pts.length ∧ tsAt pts j - t0 ≤ maxw then windowEndGo pts t0 maxw fuel (j + 1)
    else j

/-- The exclusive window end j for a scan starting at index i. -/
def windowEnd (pts : List TPt) (maxw : ℚ) (i : ℕ) : ℕ :=
  windowEndGo pts (tsAt pts i) maxw pts.length (i + 1)

/-- Python min over a nonempty list (0 for the empty list, which the
detector never passes). -/
def listMin : List ℚ → ℚ
  | [] => 0
  | x :: xs => xs.foldl min x

/-- Shortest signed angle difference, the local diff helper of the
detector: (a - b + 540) % 360 - 180. -/
def angDiff (a b : ℚ) : ℚ := pymod (a - b + 540) 360 - 180

/-- Maneuver classification from the smoothed start and end headings
and the optional true wind direction: tack when the signed difference
to the wind changes sign across the window, gybe when the midpoint
heading lies within 60 degrees of the downwind direction, turn
otherwise. -/
def classifyManeuver (twdOpt : Option ℚ) (headStart headEnd : ℚ) : String :=
  match twdOpt with
  | none => "turn"
  | some twd =>
    let sdiff := angDiff (pymod headStart 360) (pymod twd 360)
    let ediff := angDiff (pymod headEnd 360) (pymod twd 360)
    if (sdiff > 0 ∧ 0 > ediff) ∨ (sdiff < 0 ∧ 0 < ediff) then "tack"
    else if |angDiff (pymod ((headStart + headEnd) / 2) 360) (pymod (twd + 180) 360)| < 60
      then "gybe"
    else "turn"

/-- Total smoothed heading change of the window starting at i:
abs (cog_s[j-1] - cog_s[i]) with j the window end. -/
def dthetaAt (P : DetectParams) (pts : List TPt) (i : ℕ) : ℚ :=
  |(cogS P pts).getD (windowEnd pts P.maxWindowSec i - 1) 0 - (cogS P pts).getD i 0|

/-- The smoothed speed slice sog_s[i:j] of the window starting at i. -/
def windowSog (P : DetectParams) (pts : List TPt) (i : ℕ) : List ℚ :=
  ((sogS P pts).drop i).take (windowEnd pts P.maxWindowSec i - i)

/-- Entry speed of the window: window_sog[0]. -/
def entryAt (P : DetectParams) (pts : List TPt) (i : ℕ) : ℚ :=
  (windowSog P pts i).getD 0 0

/-- Minimum speed of the window. -/
def vminAt (P : DetectParams) (pts : List TPt) (i : ℕ) : ℚ :=
  listMin (windowSog P pts i)

/-- Speed drop of the window: max(0, entry - min). -/
def speedDropAt (P : DetectParams) (pts : List TPt) (i : ℕ) : ℚ :=
  max 0 (entryAt P pts i - vminAt P pts i)

/-- Duration of the window: ts[j-1] - ts[i]. -/
def durationAt (P : DetectParams) (pts : List TPt) (i : ℕ) : ℚ :=
  tsAt pts (windowEnd pts P.maxWindowSec i - 1) - tsAt pts i

/-- The detector score: 100 - 1.5 * duration - 12 * speed_drop -
0.25 * max(0, dtheta - 110), rounded with the Python round builtin
and clamped to [0, 100] as int(max(0, min(100, round(score)))). -/
def scoreOf (duration speedDrop dtheta : ℚ) : ℤ :=
  max 0 (min 100 (pythonRound (100 - (3/2) * duration - 12 * speedDrop
    - (1/4) * max 0 (dtheta - 110))))

/-- A detected maneuver. The Raw fields hold the values computed over
the smoothed window; the display fields hold the rounded values the
source persists (round to 1 or 2 decimal places). -/
structure ManeuverRec where
  mtype : String
  startIdx : ℕ
  endIdx : ℕ
  startTs : ℚ
  endTs : ℚ
  dthetaRaw : ℚ
  entryRaw : ℚ
  minRaw : ℚ
  durationRaw : ℚ
  speedDropRaw : ℚ
  angleChangeDeg : ℚ
  entrySogKn : ℚ
  minSogKn : ℚ
  timeThroughSec : ℚ
  speedLossKn : ℚ
  startLat : ℚ
  startLon : ℚ
  endLat : ℚ
  endLon : ℚ
  score : ℤ

/-- The maneuver record emitted for a window starting at index i. -/
def mkManeuver (P : DetectParams) (pts : List TPt) (i : ℕ) : ManeuverRec :=
  { mtype := classifyManeuver P.twd ((cogS P pts).getD i 0)
      ((cogS P pts).getD (windowEnd pts P.maxWindowSec i - 1) 0)
    startIdx := i
    endIdx := windowEnd pts P.maxWindowSec i - 1
    startTs := tsAt pts i
    endTs := tsAt pts (windowEnd pts P.maxWindowSec i - 1)
    dthetaRaw := dthetaAt P pts i
    entryRaw := entryAt P pts i
    minRaw := vminAt P pts i
    durationRaw := durationAt P pts i
    speedDropRaw := speedDropAt P pts i
    angleChangeDeg := pythonRoundTo (dthetaAt P pts i) 1
    entrySogKn := pythonRoundTo (entryAt P pts i) 2
    minSogKn := pythonRoundTo (vminAt P pts i) 2
    timeThroughSec := pythonRoundTo (durationAt P pts i) 1
    speedLossKn := pythonRoundTo (speedDropAt P pts i) 2
    startLat := (pts.map (fun p => p.lat)).getD i 0
    startLon := (pts.map (fun p => p.lon)).getD i 0
    endLat := (pts.map (fun p => p.lat)).getD (windowEnd pts P.maxWindowSec i - 1) 0
    endLon := (pts.map (fun p => p.lon)).getD (windowEnd pts P.maxWindowSec i - 1) 0
    score := scoreOf (durationAt P pts i) (speedDropAt P pts i) (dthetaAt P pts i) }

/-- The scan loop of detect_maneuvers, while i < n - 2: skip
stationary indices (sog_s[i] < min_sog), skip windows shorter than
two points, emit a maneuver and resume from j when both thresholds
are met inclusively, otherwise advance i by one. Fuel bounds the
iteration count; the caller passes pts.length, which suffices since
i strictly increases each iteration. -/
def detectLoop (P : DetectParams) (pts : List TPt) : ℕ → ℕ → List ManeuverRec
  | 0, _ => []
  | fuel + 1, i =>
    if i < pts.length - 2 then
      if (sogS P pts).getD i 0 < P.minSogKn then detectLoop P pts fuel (i + 1)
      else if windowEnd pts P.maxWindowSec i - i < 2 then detectLoop P pts fuel (i + 1)
      else if P.thetaMinDeg ≤ dthetaAt P pts i ∧ P.speedDropKn ≤ speedDropAt P pts i then
        mkManeuver P pts i :: detectLoop P pts fuel (windowEnd pts P.maxWindowSec i)
      else detectLoop P pts fuel (i + 1)
    else []

/-- detect_maneuvers from ai.py: fewer than 3 points yields an empty
result, otherwise the scan loop runs from index 0. -/
def detect_maneuvers (P : DetectParams) (pts : List TPt) : List ManeuverRec :=
  if pts.length < 3 then [] else detectLoop P pts pts.length 0

-- ------------------------------
-- Baseline Estimator (ai.py, calculate_baseline_for_boat)
-- ------------------------------

/-- A performance_baselines row: boat, wind-speed and wind-angle bin
bounds, mean and standard deviation of speed, and sample count. The
last_updated timestamp column is not modeled. -/
structure BaselineRow where
  boatId : ℕ
  twsMin : ℚ
  twsMax : ℚ
  twaMin : ℚ
  twaMax : ℚ
  avgSog : ℚ
  stdSog : ℚ
  sampleCount : ℕ

/-- A historical track point as the baseline query returns it: wind
data present and sog > 0.5 already enforced by the query filter. -/
structure BPoint where
  tws : ℚ
  twa : ℚ
  sog : ℚ

/-- The fixed wind speed bins of the estimator. -/
def twsBins : List (ℚ × ℚ) := [(0, 6), (6, 12), (12, 18), (18, 30)]

/-- The fixed wind angle bins of the estimator. -/
def twaBins : List (ℚ × ℚ) := [(0, 50), (50, 70), (70, 110), (110, 180)]

/-- The nested bin loop order: for each tws bin, each twa bin. -/
def binPairs : List ((ℚ × ℚ) × (ℚ × ℚ)) :=
  twsBins.flatMap (fun a => twaBins.map (fun b => (a, b)))

/-- Points of one bin: tws_min <= tws < tws_max and
twa_min <= abs twa < twa_max. -/
def binFilter (points : List BPoint) (tl th al ah : ℚ) : List BPoint :=
  points.filter (fun p => decide (tl ≤ p.tws ∧ p.tws < th ∧ al ≤ |p.twa| ∧ |p.twa| < ah))

/-- The SQL filter locating the existing row of a (boat, bin) pair. -/
def rowMatches (b : ℕ) (tl th al ah : ℚ) (r : BaselineRow) : Bool :=
  r.boatId == b && r.twsMin == tl && r.twsMax == th && r.twaMin == al && r.twaMax == ah

/-- In-place update of the first row satisfying p, as SQLAlchemy
mutates the row returned by .first(). -/
def replaceFirst (l : List BaselineRow) (p : BaselineRow → Bool)
    (f : BaselineRow → BaselineRow) : List BaselineRow :=
  match l with
  | [] => []
  | x :: xs => if p x then f x :: xs else x :: replaceFirst xs p f

/-- One bin iteration of calculate_baseline_for_boat over the state
(store, created). Bins with fewer than 10 points are skipped; when an
existing row is found and force_recalc is off it is updated in place;
otherwise a new row is inserted. sqrtQ models the Python ** 0.5 on the
variance (its value never affects row identity). -/
def baselineStep (sqrtQ : ℚ → ℚ) (boatId : ℕ) (points : List BPoint) (force : Bool)
    (st : List BaselineRow × List BaselineRow) (bin : (ℚ × ℚ) × (ℚ × ℚ)) :
    List BaselineRow × List BaselineRow :=
  let bp := binFilter points bin.1.1 bin.1.2 bin.2.1 bin.2.2
  if bp.length < 10 then st
  else
    let speeds := bp.map (fun p => p.sog)
    let avg := speeds.sum / (bp.length : ℚ)
    let variance := (speeds.map (fun s => (s - avg) ^ 2)).sum / (bp.length : ℚ)
    let std := sqrtQ variance
    if (st.1.find? (rowMatches boatId bin.1.1 bin.1.2 bin.2.1 bin.2.2)).isSome
        ∧ force = false then
      (replaceFirst st.1 (rowMatches boatId bin.1.1 bin.1.2 bin.2.1 bin.2.2)
        (fun r => { r with avgSog := avg, stdSog := std, sampleCount := bp.length }),
       st.2)
    else
      (st.1 ++ [⟨boatId, bin.1.1, bin.1.2, bin.2.1, bin.2.2, avg, std, bp.length⟩],
       st.2 ++ [⟨boatId, bin.1.1, bin.1.2, bin.2.1, bin.2.2, avg, std, bp.length⟩])

/-- calculate_baseline_for_boat from ai.py over an explicit store:
fold the bin loop over the (store, created-rows) state; the first
component is the store after the run, the second the list of newly
created rows the function returns. -/
def calculate_baseline_for_boat (sqrtQ : ℚ → ℚ) (store : List BaselineRow)
    (boatId : ℕ) (points : List BPoint) (force : Bool) :
    List BaselineRow × List BaselineRow :=
  binPairs.foldl (baselineStep sqrtQ boatId points force) (store, [])

/-- Number of store rows of one (boat, bin) key. -/
def countBin (store : List BaselineRow) (b : ℕ) (tl th al ah : ℚ) : ℕ :=
  (store.filter (rowMatches b tl th al ah)).length

-- ------------------------------
-- Anomaly Detector (ai.py, detect_anomalies)
-- ------------------------------

/-- A session track point as the anomaly query returns it (wind data
present and sog > 0.5 enforced by the query filter). -/
structure APoint where
  ts : ℚ
  lat : ℚ
  lon : ℚ
  sog : ℚ
  tws : ℚ
  twa : ℚ

/-- A maneuver time span, for the recent-maneuver cause check. -/
structure ManSpan where
  startTs : ℚ
  endTs : ℚ

/-- The matching condition of a baseline bin against a point:
tws_min <= tws < tws_max and twa_min <= abs twa < twa_max. -/
def blMatch (p : APoint) (bl : BaselineRow) : Bool :=
  decide (bl.twsMin ≤ p.tws ∧ p.tws < bl.twsMax ∧ bl.twaMin ≤ |p.twa| ∧ |p.twa| < bl.twaMax)

/-- First matching baseline of the boat for a point, as the for-break
loop of detect_anomalies finds it. -/
def findBaseline (bls : List BaselineRow) (p : APoint) : Option BaselineRow :=
  bls.find? (blMatch p)

/-- The possible-cause heuristics of detect_anomalies: a maneuver
overlapping the prior 10 seconds, pinching below 35 degrees, footing
above 50 degrees within a bin capped at 70, wind below bin minimum
plus 2; a generic cause when none apply. -/
def possibleCauses (mans : List ManSpan) (bl : BaselineRow) (p : APoint) : List String :=
  let c1 : List String :=
    if (mans.find? (fun m => decide (m.startTs ≤ p.ts ∧ p.ts - 10 ≤ m.endTs))).isSome
    then ["Speed loss from recent tack/gybe"] else []
  let c2 : List String :=
    if |p.twa| < 35 then ["Sailing too close to wind (pinching)"]
    else if 50 < |p.twa| ∧ bl.twaMax ≤ 70 then ["Sailing too low (footing)"]
    else []
  let c3 : List String :=
    if p.tws < bl.twsMin + 2 then ["Wind speed below normal for conditions"] else []
  let cs := c1 ++ c2 ++ c3
  if cs = [] then ["Unknown - review sail trim and technique"] else cs

/-- A performance_anomalies row. -/
structure AnomalyRec where
  ts : ℚ
  lat : ℚ
  lon : ℚ
  actualSog : ℚ
  expectedSog : ℚ
  deviationKts : ℚ
  zScore : ℚ
  severity : String
  causes : List String
  windSpeed : ℚ
  windAngle : ℚ

/-- Per-point body of the detect_anomalies loop: skip when no bin
matches or the matching baseline has zero standard deviation, flag
when the z-score is strictly below the negated threshold, grading the
severity at -3.0 and -2.5. -/
def processPoint (bls : List BaselineRow) (mans : List ManSpan) (zthr : ℚ)
    (p : APoint) : Option AnomalyRec :=
  match findBaseline bls p with
  | none => none
  | some bl =>
    if bl.stdSog = 0 then none
    else
      if (p.sog - bl.avgSog) / bl.stdSog < -zthr then
        some { ts := p.ts, lat := p.lat, lon := p.lon, actualSog := p.sog,
               expectedSog := bl.avgSog, deviationKts := p.sog - bl.avgSog,
               zScore := (p.sog - bl.avgSog) / bl.stdSog,
               severity :=
                 if (p.sog - bl.avgSog) / bl.stdSog < -3 then "severe"
                 else if (p.sog - bl.avgSog) / bl.stdSog < -(5/2) then "moderate"
                 else "minor",
               causes := possibleCauses mans bl p,
               windSpeed := p.tws, windAngle := p.twa }
      else none

/-- detect_anomalies from ai.py over explicit baseline and maneuver
lists: one anomaly row per flagged point, skipped points contribute
nothing and never raise. -/
def detect_anomalies (bls : List BaselineRow) (mans : List ManSpan) (zthr : ℚ)
    (pts : List APoint) : List AnomalyRec :=
  pts.filterMap (processPoint bls mans zthr)

-- ------------------------------
-- VMG Optimizer (ai.py, optimize_vmg_for_boat)
-- ------------------------------

/-- A historical track point as the VMG query returns it (wind data
non-null and sog > 1.0 enforced by the query filter). -/
structure VPoint where
  tws : ℚ
  twa : ℚ
  sog : ℚ

/-- calculate_vmg_from_point from ai.py: None when twa, tws or sog is
falsy (zero models the Python falsiness of 0.0; the query already
excludes None), otherwise sog * cos(radians(abs twa)). The cosd
parameter models math.cos of math.radians, whose transcendental value
never affects the sample-count claims. -/
def calculate_vmg_from_point (cosd : ℚ → ℚ) (p : VPoint) : Option ℚ :=
  if p.twa = 0 ∨ p.tws = 0 ∨ p.sog = 0 then none
  else some (p.sog * cosd |p.twa|)

/-- A row of the pandas DataFrame the optimizer builds: tws, absolute
twa, sog, vmg. -/
structure VRow where
  tws : ℚ
  twa : ℚ
  sog : ℚ
  vmg : ℚ

/-- The DataFrame rows: one per point with a non-None vmg. -/
def vmgData (cosd : ℚ → ℚ) (points : List VPoint) : List VRow :=
  points.filterMap (fun p =>
    (calculate_vmg_from_point cosd p).map (fun v => ⟨p.tws, |p.twa|, p.sog, v⟩))

/-- The 5 degree angle bin key: (twa / 5).round() * 5 with the pandas
banker rounding. -/
def twaBin5 (twa : ℚ) : ℚ := (pythonRound (twa / 5) : ℚ) * 5

/-- The groupby keys: distinct angle-bin values in ascending order, as
pandas sorts group indices. -/
def groupKeys (rows : List VRow) : List ℚ :=
  ((rows.map (fun r => twaBin5 r.twa)).dedup).insertionSort (· ≤ ·)

/-- Sample count of one angle-bin group. -/
def keyCount (rows : List VRow) (k : ℚ) : ℕ :=
  (rows.filter (fun r => decide (twaBin5 r.twa = k))).length

/-- Mean vmg of one angle-bin group. -/
def keyMean (rows : List VRow) (k : ℚ) : ℚ :=
  ((rows.filter (fun r => decide (twaBin5 r.twa = k))).map (fun r => r.vmg)).sum
    / (keyCount rows k : ℚ)

/-- The grouped table after the count >= 3 filter: (angle bin, mean
vmg) per surviving group, ascending by angle bin. -/
def vmgStats (rows : List VRow) : List (ℚ × ℚ) :=
  (groupKeys rows).filterMap (fun k =>
    if 3 ≤ keyCount rows k then some (k, keyMean rows k) else none)

/-- First maximum scan: replace the best only on a strictly greater
mean, so ties keep the earliest group, as pandas idxmax does. -/
def argmaxGo (best : ℚ × ℚ) : List (ℚ × ℚ) → ℚ × ℚ
  | [] => best
  | x :: xs => if best.2 < x.2 then argmaxGo x xs else argmaxGo best xs

/-- idxmax over the stats list: the first pair with maximal mean. -/
def argmaxFirst : List (ℚ × ℚ) → Option (ℚ × ℚ)
  | [] => none
  | x :: xs => some (argmaxGo x xs)

/-- Optimal-angle selection within one half (upwind or downwind):
needs at least 10 rows, keeps 5 degree bins with at least 3 samples,
picks the bin of highest mean vmg; returns (angle, vmg, half size). -/
def selectOptimal (rows : List VRow) : Option (ℚ × ℚ × ℕ) :=
  if 10 ≤ rows.length then
    match argmaxFirst (vmgStats rows) with
    | some km => some (km.1, km.2, rows.length)
    | none => none
  else none

/-- Rows of one wind-speed bin: lo <= tws < hi. -/
def binRows (data : List VRow) (lo hi : ℚ) : List VRow :=
  data.filter (fun r => decide (lo ≤ r.tws ∧ r.tws < hi))

/-- A vmg_optimizations upsert as the optimizer computes it, along
with the training_metadata counts. -/
structure VMGOpt where
  twsMin : ℚ
  twsMax : ℚ
  upwind : Option (ℚ × ℚ × ℕ)
  downwind : Option (ℚ × ℚ × ℕ)
  accuracy : ℚ
  totalPoints : ℕ
  upwindPoints : ℕ
  downwindPoints : ℕ

/-- The upwind half of a wind-speed bin: twa < 90. -/
def upRows (data : List VRow) (lo hi : ℚ) : List VRow :=
  (binRows data lo hi).filter (fun r => decide (r.twa < 90))

/-- The downwind half of a wind-speed bin: twa >= 90. -/
def downRows (data : List VRow) (lo hi : ℚ) : List VRow :=
  (binRows data lo hi).filter (fun r => decide (90 ≤ r.twa))

/-- One wind-speed bin iteration of the optimizer: skip bins under 20
rows, split at 90 degrees, select each half optimum, skip when both
halves fail, and attach the ridge-regression score r2fn (attempted
only for bins of more than 20 rows, otherwise left 0.0). -/
def vmgBinOpt (r2fn : List VRow → ℚ) (data : List VRow) (b : ℚ × ℚ) : Option VMGOpt :=
  if (binRows data b.1 b.2).length < 20 then none
  else
    if selectOptimal (upRows data b.1 b.2) = none
        ∧ selectOptimal (downRows data b.1 b.2) = none then none
    else
      some { twsMin := b.1, twsMax := b.2,
             upwind := selectOptimal (upRows data b.1 b.2),
             downwind := selectOptimal (downRows data b.1 b.2),
             accuracy := if 20 < (binRows data b.1 b.2).length
               then r2fn (binRows data b.1 b.2) else 0,
             totalPoints := (binRows data b.1 b.2).length,
             upwindPoints := (upRows data b.1 b.2).length,
             downwindPoints := (downRows data b.1 b.2).length }

/-- optimize_vmg_for_boat from ai.py: an insufficient-data error below
50 points, otherwise one upsert per qualifying wind-speed bin. -/
def optimize_vmg_for_boat (cosd : ℚ → ℚ) (r2fn : List VRow → ℚ)
    (points : List VPoint) : Except String (List VMGOpt) :=
  if points.length < 50 then
    Except.error "Insufficient data for VMG optimization (need at least 50 points)"
  else
    Except.ok (twsBins.filterMap (vmgBinOpt r2fn (vmgData cosd points)))

-- ------------------------------
-- Coaching Engine, wind shift section (ai.py, analyze_and_recommend)
-- ------------------------------

/-- A recent track point as the coaching query returns it (ordered
most recent first), with the fields the wind-shift section reads. -/
structure CPoint where
  tws : Option ℚ
  twa : Option ℚ
  cog : Option ℚ

/-- Python truthiness of an optional float: None and 0.0 are falsy. -/
def truthy : Option ℚ → Bool
  | none => false
  | some x => decide (x ≠ 0)

/-- The wind samples of the coaching wind-shift section: true wind
direction (cog + twa) mod 360 over the trailing 30 recent points that
carry truthy tws, twa and cog. -/
def windSamples (recent : List CPoint) : List ℚ :=
  (recent.take 30).filterMap (fun pt =>
    if truthy pt.tws && truthy pt.twa && truthy pt.cog
    then some (pymod (pt.cog.getD 0 + pt.twa.getD 0) 360)
    else none)

/-- Mean TWD of the most recent minute: the first ten wind samples. -/
def recentTwdOf (recent : List CPoint) : ℚ :=
  ((windSamples recent).take 10).sum / 10

/-- Mean TWD of one to two minutes ago: wind samples ten to twenty. -/
def earlierTwdOf (recent : List CPoint) : ℚ :=
  (((windSamples recent).drop 10).take 10).sum / 10

/-- Wrap normalization of the shift into (-180, 180]. -/
def normShift (s : ℚ) : ℚ :=
  if s > 180 then s - 360 else if s < -180 then s + 360 else s

/-- The wrap-normalized TWD shift the section computes. -/
def shiftOf (recent : List CPoint) : ℚ :=
  normShift (recentTwdOf recent - earlierTwdOf recent)

/-- A coaching recommendation of the wind-shift section, with the
rounded context fields the source stores. -/
structure CoachRec where
  rtype : String
  priority : String
  confidence : ℕ
  direction : String
  shiftDegrees : ℚ
  earlierTwd : ℚ
  recentTwd : ℚ

/-- The wind-shift section of analyze_and_recommend: with at least 30
recent points and at least 20 wind samples, an absolute shift above 10
degrees emits a high-priority confidence-70 recommendation; a right
shift is emitted only when the boat is upwind (is_upwind is the
abs(current twa) < 90 test of the caller), a left shift always. -/
def windShiftSection (recent : List CPoint) (isUpwind : Bool) : List CoachRec :=
  if 30 ≤ recent.length then
    if 20 ≤ (windSamples recent).length then
      if 10 < |shiftOf recent| then
        if 0 < shiftOf recent then
          if isUpwind then
            [⟨"wind_shift_detected", "high", 70, "right",
              pythonRoundTo (shiftOf recent) 1,
              pythonRoundTo (earlierTwdOf recent) 0,
              pythonRoundTo (recentTwdOf recent) 0⟩]
          else []
        else
          [⟨"wind_shift_detected", "high", 70, "left",
            pythonRoundTo (shiftOf recent) 1,
            pythonRoundTo (earlierTwdOf recent) 0,
            pythonRoundTo (recentTwdOf recent) 0⟩]
      else []
    else []
  else []

-- ------------------------------
-- Wind Shift Detector (ai.py, detect_wind_shifts)
-- ------------------------------

/-- A session track point as the wind-shift query returns it (tws,
twa, cog non-null, ordered by ts). -/
structure WPoint where
  ts : ℚ
  tws : ℚ
  twa : ℚ
  cog : ℚ

/-- calculate_twd from ai.py: (cog + twa) mod 360. -/
def calculate_twd (cog twa : ℚ) : ℚ := pymod (cog + twa) 360

/-- normalize_angle_difference from ai.py: the smallest angle
difference angle2 - angle1 brought into (-180, 180]. -/
def normalize_angle_difference (angle1 angle2 : ℚ) : ℚ :=
  if angle2 - angle1 > 180 then angle2 - angle1 - 360
  else if angle2 - angle1 < -180 then angle2 - angle1 + 360
  else angle2 - angle1

/-- An entry of the twd_data list. -/
structure TwdPt where
  ts : ℚ
  twd : ℚ
  tws : ℚ

/-- The twd_data list: per point the timestamp, the derived true wind
direction and the wind speed. -/
def twdData (points : List WPoint) : List TwdPt :=
  points.map (fun p => ⟨p.ts, calculate_twd p.cog p.twa, p.tws⟩)

/-- Timestamp of twd_data entry i. -/
def tsD (tds : List TwdPt) (i : ℕ) : ℚ := (tds.getD i ⟨0, 0, 0⟩).ts

/-- The before window at index i: entries up to i within ws seconds
before the current timestamp. -/
def beforeWin (tds : List TwdPt) (ws : ℚ) (i : ℕ) : List TwdPt :=
  (tds.take (i + 1)).filter (fun p => decide (tsD tds i - p.ts ≤ ws))

/-- The after window at index i: entries after i up to ws seconds
after the current timestamp. -/
def afterWin (tds : List TwdPt) (ws : ℚ) (i : ℕ) : List TwdPt :=
  (tds.drop (i + 1)).filter (fun p => decide (p.ts ≤ tsD tds i + ws))

/-- Mean TWD of a window. -/
def meanTwd (l : List TwdPt) : ℚ := (l.map (fun p => p.twd)).sum / (l.length : ℚ)

/-- Mean TWS of a window. -/
def meanTws (l : List TwdPt) : ℚ := (l.map (fun p => p.tws)).sum / (l.length : ℚ)

/-- The normalized TWD shift at index i. -/
def shiftAt (tds : List TwdPt) (ws : ℚ) (i : ℕ) : ℚ :=
  normalize_angle_difference (meanTwd (beforeWin tds ws i)) (meanTwd (afterWin tds ws i))

/-- A detected (not yet classified) wind shift record. -/
structure DetShift where
  startTs : ℚ
  endTs : ℚ
  magnitude : ℚ
  direction : String
  twdBefore : ℚ
  twdAfter : ℚ
  twsBefore : ℚ
  twsAfter : ℚ

/-- One iteration of the detection scan at index i over the
accumulated shifts: skip when either window holds fewer than 5
entries, flag when the absolute shift reaches min_shift_deg, and
suppress a candidate whose start lies within window_seconds of an
already detected shift. -/
def scanStep (tds : List TwdPt) (minShift ws : ℚ) (acc : List DetShift) (i : ℕ) :
    List DetShift :=
  if (beforeWin tds ws i).length < 5 ∨ (afterWin tds ws i).length < 5 then acc
  else if minShift ≤ |shiftAt tds ws i| then
    if acc.all (fun prev => decide (¬ (tsD tds i - prev.startTs < ws))) then
      acc ++ [{ startTs := tsD tds i,
                endTs := match (afterWin tds ws i).getLast? with
                  | some p => p.ts
                  | none => tsD tds i,
                magnitude := |shiftAt tds ws i|,
                direction := if 0 < shiftAt tds ws i then "right" else "left",
                twdBefore := meanTwd (beforeWin tds ws i),
                twdAfter := meanTwd (afterWin tds ws i),
                twsBefore := meanTws (beforeWin tds ws i),
                twsAfter := meanTws (afterWin tds ws i) }]
    else acc
  else acc

/-- The detection pass: fold the scan over indices 0 to n - 2. -/
def detectedShifts (tds : List TwdPt) (minShift ws : ℚ) : List DetShift :=
  (List.range (tds.length - 1)).foldl (scanStep tds minShift ws) []

/-- The classification lookahead over the shifts after the current
one: inside 15 minutes a direction reversal makes the shift
oscillating (recording the gap in minutes) and a same-direction shift
is skipped; the first shift at or beyond 15 minutes stops the scan,
leaving the is_persistent flag set. Returns (is_oscillating,
is_persistent, oscillation_period). -/
def classifyGo (s : DetShift) : List DetShift → Bool × Bool × Option ℚ
  | [] => (false, true, none)
  | next :: tl =>
    if (next.startTs - s.startTs) / 60 < 15 then
      if s.direction ≠ next.direction then
        (true, false, some ((next.startTs - s.startTs) / 60))
      else classifyGo s tl
    else (false, true, none)

/-- A classified wind shift as persisted to the WindShift table. -/
structure ClassifiedShift where
  shift : DetShift
  shiftType : String
  confidence : ℚ
  oscillationPeriod : Option ℚ

/-- Classification of one shift from the lookahead flags: oscillating
with confidence 0.8, else persistent with confidence 0.9, else
transient with confidence 0.6. -/
def classifyOne (s : DetShift) (rest : List DetShift) : ClassifiedShift :=
  if (classifyGo s rest).1 then ⟨s, "oscillating", 4/5, (classifyGo s rest).2.2⟩
  else if (classifyGo s rest).2.1 then ⟨s, "persistent", 9/10, none⟩
  else ⟨s, "transient", 3/5, none⟩

/-- The classification pass over the detected shifts in order: each
shift is classified against the shifts after it. -/
def classifyShifts : List DetShift → List ClassifiedShift
  | [] => []
  | s :: rest => classifyOne s rest :: classifyShifts rest

/-- detect_wind_shifts from ai.py: an insufficient-data error below 20
points, otherwise the detection scan followed by classification, with
window_seconds = window_minutes * 60. -/
def detect_wind_shifts (points : List WPoint) (minShift : ℚ) (windowMinutes : ℕ) :
    Except String (List ClassifiedShift) :=
  if points.length < 20 then Except.error "Insufficient data for wind shift analysis"
  else Except.ok (classifyShifts
    (detectedShifts (twdData points) minShift ((windowMinutes : ℚ) * 60)))

/-- Default detected shift for getD indexing in statements. -/
def dfltShift : DetShift := ⟨0, 0, 0, "", 0, 0, 0, 0⟩

/-- Default classified shift for getD indexing in statements. -/
def dfltClassified : ClassifiedShift := ⟨dfltShift, "", 0, none⟩

/-- The reversing-shift condition of the classification lookahead:
starts within 15 minutes of s and has the opposite direction. -/
def reversalPred (s n : DetShift) : Bool :=
  decide ((n.startTs - s.startTs) / 60 < 15 ∧ s.direction ≠ n.direction)

-- ==============================
-- Theorems
-- ==============================

lemma unwrapGo_length (rest : List ℚ) : ∀ (last offset : ℚ),
    (unwrapGo last offset rest).length = rest.length := by
  induction rest with
  | nil => intro last offset; simp [unwrapGo]
  | cons d tl ih =>
    intro last offset
    simp only [unwrapGo, List.length_cons]
    rw [ih]

lemma adjOffset_mul (last offset d : ℚ) (k0 : ℤ) (h : offset = 360 * k0) :
    ∃ k1 : ℤ, adjOffset last offset d = 360 * k1 := by
  unfold adjOffset
  split_ifs with h1 h2
  · exact ⟨k0 - 1, by rw [h]; push_cast; ring⟩
  · exact ⟨k0 + 1, by rw [h]; push_cast; ring⟩
  · exact ⟨k0, h⟩

lemma unwrapGo_mod (rest : List ℚ) : ∀ (last offset : ℚ) (k0 : ℤ),
    offset = 360 * k0 → ∀ i, ∃ k : ℤ,
      (unwrapGo last offset rest).getD i 0 = rest.getD i 0 + 360 * k := by
  induction rest with
  | nil => intro last offset k0 _ i; exact ⟨0, by simp [unwrapGo]⟩
  | cons d tl ih =>
    intro last offset k0 hoff i
    obtain ⟨k1, hk1⟩ := adjOffset_mul last offset d k0 hoff
    cases i with
    | zero =>
      refine ⟨k1, ?_⟩
      simp only [unwrapGo, List.getD_cons_zero]
      rw [hk1]
    | succ n =>
      simp only [unwrapGo, List.getD_cons_succ]
      exact ih d _ k1 hk1 n

lemma unwrapGo_delta (rest : List ℚ) : ∀ (last offset : ℚ),
    (∀ d ∈ rest, 0 ≤ d ∧ d < 360) → 0 ≤ last → last < 360 →
    ∀ i, i + 1 < rest.length + 1 →
      |((last + offset) :: unwrapGo last offset rest).getD (i + 1) 0 -
        ((last + offset) :: unwrapGo last offset rest).getD i 0| ≤ 180 := by
  induction rest with
  | nil => intro last offset _ _ _ i hi; simp at hi
  | cons d tl ih =>
    intro last offset hbnd hl0 hl1 i hi
    have hd : 0 ≤ d ∧ d < 360 := hbnd d (List.mem_cons_self d tl)
    have htl : ∀ x ∈ tl, 0 ≤ x ∧ x < 360 := fun x hx => hbnd x (List.mem_cons_of_mem d hx)
    cases i with
    | zero =>
      simp only [unwrapGo, List.getD_cons_zero, List.getD_cons_succ]
      rw [abs_le, adjOffset]
      split_ifs with h1 h2 <;> constructor <;> linarith [hd.1, hd.2]
    | succ n =>
      have hrec := ih d (adjOffset last offset d) htl hd.1 hd.2 n (by simpa using hi)
      simpa only [unwrapGo, List.getD_cons_succ] using hrec

/-- C8: the unwrap transform preserves length, every output element is
congruent to the raw input heading modulo 360 (it differs from it by an
integer multiple of 360, the first element by zero), and for raw
headings in [0, 360) consecutive unwrapped values never differ by more
than 180 in absolute value, so no artificial full-cycle jump is ever
introduced. -/
theorem unwrap_deg_spec (degs : List ℚ) :
    (unwrap_deg degs).length = degs.length ∧
    (∀ i, ∃ k : ℤ, (unwrap_deg degs).getD i 0 = degs.getD i 0 + 360 * k) ∧
    ((∀ d ∈ degs, 0 ≤ d ∧ d < 360) → ∀ i, i + 1 < degs.length →
      |(unwrap_deg degs).getD (i + 1) 0 - (unwrap_deg degs).getD i 0| ≤ 180) := by
  cases degs with
  | nil =>
    refine ⟨rfl, fun i => ⟨0, by simp [unwrap_deg]⟩, fun _ i hi => by simp at hi⟩
  | cons d tl =>
    refine ⟨?_, ?_, ?_⟩
    · simp only [unwrap_deg, List.length_cons]
      rw [unwrapGo_length]
    · intro i
      cases i with
      | zero => exact ⟨0, by simp [unwrap_deg]⟩
      | succ n =>
        simp only [unwrap_deg, List.getD_cons_succ]
        exact unwrapGo_mod tl d 0 0 (by norm_num) n
    · intro hbnd i hi
      have hd : 0 ≤ d ∧ d < 360 := hbnd d (List.mem_cons_self d tl)
      have htl : ∀ x ∈ tl, 0 ≤ x ∧ x < 360 := fun x hx => hbnd x (List.mem_cons_of_mem d hx)
      have h := unwrapGo_delta tl d 0 htl hd.1 hd.2 i (by simpa using hi)
      simpa only [unwrap_deg, add_zero] using h

/-- Witness for unwrap_deg_spec at the concrete heading list [350, 10]:
the bound hypotheses hold and the consecutive-delta bound follows. -/
theorem unwrap_deg_spec_witness :
    (∀ d ∈ ([350, 10] : List ℚ), 0 ≤ d ∧ d < 360) ∧
    |(unwrap_deg [350, 10]).getD 1 0 - (unwrap_deg [350, 10]).getD 0 0| ≤ 180 :=
  ⟨by decide, (unwrap_deg_spec [350, 10]).2.2 (by decide) 0 (by decide)⟩

lemma movavgGo_length (vals : List ℚ) (w : ℕ) (rest : List ℚ) :
    ∀ (i : ℕ) (acc : ℚ), (movavgGo vals w rest i acc).length = rest.length := by
  induction rest with
  | nil => intro i acc; simp [movavgGo]
  | cons v tl ih =>
    intro i acc
    simp only [movavgGo, List.length_cons]
    rw [ih]

lemma accSpec_step (vals : List ℚ) (w i : ℕ) (hw : 1 ≤ w) :
    accNext vals w i (accSpec vals w i) (vals.getD i 0) = accSpec vals w (i + 1) := by
  unfold accNext accSpec
  split_ifs with h
  · have h1 : i + 1 - w = (i - w) + 1 := by omega
    have h2 : ∑ k ∈ Finset.Ico (i - w) (i + 1), vals.getD k 0
        = (∑ k ∈ Finset.Ico (i - w) i, vals.getD k 0) + vals.getD i 0 :=
      Finset.sum_Ico_succ_top (by omega) _
    have h3 : ∑ k ∈ Finset.Ico (i - w) (i + 1), vals.getD k 0
        = vals.getD (i - w) 0 + ∑ k ∈ Finset.Ico ((i - w) + 1) (i + 1), vals.getD k 0 :=
      Finset.sum_eq_sum_Ico_succ_bot (by omega) _
    rw [h1]
    linarith [h2, h3]
  · have h1 : i - w = 0 := by omega
    have h2 : i + 1 - w = 0 := by omega
    rw [h1, h2]
    exact (Finset.sum_Ico_succ_top (Nat.zero_le i) _).symm

lemma movavgGo_getD (vals : List ℚ) (w : ℕ) (hw : 1 ≤ w) :
    ∀ (rest : List ℚ) (i t : ℕ), rest = vals.drop i → t < rest.length →
      (movavgGo vals w rest i (accSpec vals w i)).getD t 0 =
        if w - 1 ≤ i + t then accSpec vals w (i + t + 1) / (w : ℚ)
        else vals.getD (i + t) 0 := by
  intro rest
  induction rest with
  | nil => intro i t _ ht; simp at ht
  | cons v tl ih =>
    intro i t hdrop ht
    have hv : vals.getD i 0 = v := by
      have h0 : (vals.drop i).getD 0 0 = v := by rw [← hdrop]; rfl
      rwa [List.getD_eq_getElem?_getD, List.getElem?_drop, Nat.add_zero,
        ← List.getD_eq_getElem?_getD] at h0
    have htl : tl = vals.drop (i + 1) := by
      have h1 : List.drop 1 (List.drop i vals) = List.drop (i + 1) vals := by
        rw [List.drop_drop]
      rw [← h1, ← hdrop]
      rfl
    have hacc2 : accNext vals w i (accSpec vals w i) v = accSpec vals w (i + 1) := by
      rw [← hv]; exact accSpec_step vals w i hw
    cases t with
    | zero =>
      simp only [movavgGo, List.getD_cons_zero, Nat.add_zero]
      rw [outAt, hacc2, ← hv]
    | succ n =>
      simp only [movavgGo, List.getD_cons_succ]
      rw [hacc2]
      have hgoal := ih (i + 1) n htl (by simpa using ht)
      have harr1 : i + 1 + n = i + (n + 1) := by omega
      rw [harr1] at hgoal
      exact hgoal

/-- C9: the moving average returns the input unchanged when w is at
most 1 or the input is shorter than w; it preserves length; for
2 ≤ w ≤ len, output element i equals input element i when i < w - 1
and equals the mean of input elements i - w + 1 through i when
w - 1 ≤ i; and window 3 on [1, 2, 3, 4, 5] yields [1, 2, 2, 3, 4]. -/
theorem movavg_spec (vals : List ℚ) (w : ℕ) :
    ((w ≤ 1 ∨ vals.length < w) → movavg vals w = vals) ∧
    (movavg vals w).length = vals.length ∧
    (2 ≤ w → w ≤ vals.length → ∀ i, i < vals.length →
      (i < w - 1 → (movavg vals w).getD i 0 = vals.getD i 0) ∧
      (w - 1 ≤ i → (movavg vals w).getD i 0 =
        (∑ k ∈ Finset.Ico (i + 1 - w) (i + 1), vals.getD k 0) / (w : ℚ))) ∧
    movavg [1, 2, 3, 4, 5] 3 = [1, 2, 2, 3, 4] := by
  refine ⟨fun h => by rw [movavg, if_pos h], ?_, ?_,
    by norm_num [movavg, movavgGo, accNext, outAt, List.getD]⟩
  · rw [movavg]
    split_ifs with h
    · rfl
    · exact movavgGo_length vals w vals 0 0
  · intro hw hlen i hi
    have hnot : ¬ (w ≤ 1 ∨ vals.length < w) := by omega
    have hzero : accSpec vals w 0 = 0 := by simp [accSpec]
    have hmain := movavgGo_getD vals w (by omega) vals 0 i (by simp) hi
    rw [hzero] at hmain
    rw [movavg, if_neg hnot]
    constructor
    · intro hwarm
      rw [hmain, if_neg (by omega)]
      simp
    · intro hcold
      rw [hmain, if_pos (by omega)]
      simp only [Nat.zero_add]
      rfl

/-- Witness for movavg_spec at window 3 on [1, 2, 3, 4, 5], index 3:
the hypotheses hold and the output element equals the trailing mean. -/
theorem movavg_spec_witness :
    (2 ≤ 3 ∧ 3 ≤ ([1, 2, 3, 4, 5] : List ℚ).length ∧ (3 : ℕ) < 5) ∧
    (movavg [1, 2, 3, 4, 5] 3).getD 3 0 =
      (∑ k ∈ Finset.Ico 1 4, ([1, 2, 3, 4, 5] : List ℚ).getD k 0) / (3 : ℚ) :=
  ⟨⟨by norm_num, by decide, by norm_num⟩,
    ((movavg_spec [1, 2, 3, 4, 5] 3).2.2.1 (by norm_num) (by decide) 3
      (by decide)).2 (by norm_num)⟩

lemma floor_le_pythonRound (x : ℚ) : ⌊x⌋ ≤ pythonRound x := by
  unfold pythonRound
  split_ifs <;> omega

lemma pythonRound_le_floor_add_one (x : ℚ) : pythonRound x ≤ ⌊x⌋ + 1 := by
  unfold pythonRound
  split_ifs <;> omega

lemma pythonRound_intCast (n : ℤ) : pythonRound (n : ℚ) = n := by
  unfold pythonRound
  rw [Int.floor_intCast]
  have h : (n : ℚ) - (n : ℤ) = 0 := by ring
  rw [h]
  norm_num

lemma pythonRound_hundred : pythonRound (100 : ℚ) = 100 := by
  have h := pythonRound_intCast 100
  have hc : ((100 : ℤ) : ℚ) = (100 : ℚ) := by norm_num
  rwa [hc] at h

lemma pythonRound_clamp (x : ℚ) :
    max 0 (min 100 (pythonRound x)) = pythonRound (max 0 (min 100 x)) := by
  rcases lt_or_le x 0 with hx | hx
  · have h1 : min (100 : ℚ) x = x := min_eq_right (by linarith)
    have h2 : max (0 : ℚ) x = 0 := max_eq_left (by linarith)
    rw [h1, h2]
    have h3 : pythonRound (0 : ℚ) = 0 := by
      have h := pythonRound_intCast 0
      have hc : ((0 : ℤ) : ℚ) = (0 : ℚ) := by norm_num
      rwa [hc] at h
    rw [h3]
    have h4 : pythonRound x ≤ 0 := by
      have hf : ⌊x⌋ < 0 := Int.floor_lt.mpr (by exact_mod_cast hx)
      have := pythonRound_le_floor_add_one x
      omega
    rw [min_eq_right (by omega : pythonRound x ≤ (100 : ℤ))]
    exact max_eq_left h4
  · rcases le_or_lt x 100 with hx2 | hx2
    · have h1 : min (100 : ℚ) x = x := min_eq_right hx2
      have h2 : max (0 : ℚ) x = x := max_eq_right hx
      rw [h1, h2]
      have hge : (0 : ℤ) ≤ pythonRound x := by
        have hf : 0 ≤ ⌊x⌋ := Int.floor_nonneg.mpr hx
        have := floor_le_pythonRound x
        omega
      have hle : pythonRound x ≤ 100 := by
        rcases eq_or_lt_of_le hx2 with heq | hlt
        · rw [heq, pythonRound_hundred]
        · have hf : ⌊x⌋ < 100 := Int.floor_lt.mpr (by exact_mod_cast hlt)
          have := pythonRound_le_floor_add_one x
          omega
      rw [min_eq_right hle, max_eq_right hge]
    · have h1 : min (100 : ℚ) x = 100 := min_eq_left (by linarith)
      rw [h1]
      have h2 : max (0 : ℚ) (100 : ℚ) = 100 := by norm_num
      rw [h2, pythonRound_hundred]
      have hge : (100 : ℤ) ≤ pythonRound x := by
        have hf : (100 : ℤ) ≤ ⌊x⌋ := Int.le_floor.mpr (by exact_mod_cast hx2.le)
        have := floor_le_pythonRound x
        omega
      rw [min_eq_left hge]
      norm_num

lemma detectLoop_fuel (P : DetectParams) (pts : List TPt) :
    ∀ fuel fuel' i, pts.length - i ≤ fuel → pts.length - i ≤ fuel' →
      detectLoop P pts fuel i = detectLoop P pts fuel' i := by
  intro fuel
  induction fuel with
  | zero =>
    intro fuel' i h _
    have hni : ¬ i < pts.length - 2 := by omega
    cases fuel' with
    | zero => rfl
    | succ f => simp only [detectLoop, if_neg hni]
  | succ f ih =>
    intro fuel' i h h'
    cases fuel' with
    | zero =>
      have hni : ¬ i < pts.length - 2 := by omega
      simp only [detectLoop, if_neg hni]
    | succ f' =>
      simp only [detectLoop]
      by_cases h1 : i < pts.length - 2
      · rw [if_pos h1, if_pos h1]
        by_cases h2 : (sogS P pts).getD i 0 < P.minSogKn
        · rw [if_pos h2, if_pos h2]
          exact ih f' (i + 1) (by omega) (by omega)
        · rw [if_neg h2, if_neg h2]
          by_cases h3 : windowEnd pts P.maxWindowSec i - i < 2
          · rw [if_pos h3, if_pos h3]
            exact ih f' (i + 1) (by omega) (by omega)
          · rw [if_neg h3, if_neg h3]
            by_cases h4 : P.thetaMinDeg ≤ dthetaAt P pts i ∧
                P.speedDropKn ≤ speedDropAt P pts i
            · rw [if_pos h4, if_pos h4]
              rw [ih f' (windowEnd pts P.maxWindowSec i) (by omega) (by omega)]
            · rw [if_neg h4, if_neg h4]
              exact ih f' (i + 1) (by omega) (by omega)
      · rw [if_neg h1, if_neg h1]

lemma detectLoop_mem (P : DetectParams) (pts : List TPt) :
    ∀ fuel i m, m ∈ detectLoop P pts fuel i → ∃ k, m = mkManeuver P pts k := by
  intro fuel
  induction fuel with
  | zero => intro i m hm; simp [detectLoop] at hm
  | succ f ih =>
    intro i m hm
    simp only [detectLoop] at hm
    split_ifs at hm with h1 h2 h3 h4
    · exact ih _ m hm
    · exact ih _ m hm
    · rcases List.mem_cons.mp hm with h | h
      · exact ⟨i, h⟩
      · exact ih _ m h
    · exact ih _ m hm
    · simp at hm

/-- C3: every maneuver emitted by the detector carries the integer
score of the source formula over the raw window values, this equals
the spec phrasing clamp-then-round (banker rounding commutes with
clamping to the integer bounds 0 and 100), and every emitted score
lies in [0, 100]. -/
theorem maneuver_score_spec (P : DetectParams) (pts : List TPt) (m : ManeuverRec)
    (hm : m ∈ detect_maneuvers P pts) :
    m.score = max 0 (min 100 (pythonRound
      (100 - (3/2) * m.durationRaw - 12 * m.speedDropRaw
        - (1/4) * max 0 (m.dthetaRaw - 110)))) ∧
    m.score = pythonRound (max 0 (min 100
      (100 - (3/2) * m.durationRaw - 12 * m.speedDropRaw
        - (1/4) * max 0 (m.dthetaRaw - 110)))) ∧
    0 ≤ m.score ∧ m.score ≤ 100 := by
  have hk : ∃ k, m = mkManeuver P pts k := by
    unfold detect_maneuvers at hm
    split_ifs at hm with h
    · simp at hm
    · exact detectLoop_mem P pts pts.length 0 m hm
  obtain ⟨k, rfl⟩ := hk
  refine ⟨rfl, ?_, ?_, ?_⟩
  · have h := pythonRound_clamp (100 - (3/2) * durationAt P pts k
      - 12 * speedDropAt P pts k - (1/4) * max 0 (dthetaAt P pts k - 110))
    simpa [mkManeuver, scoreOf] using h
  · simp only [mkManeuver, scoreOf]
    exact le_max_left 0 _
  · simp only [mkManeuver, scoreOf]
    exact max_le (by norm_num) (min_le_left _ _)

/-- Concrete four-point session for the score witness: a 60 degree
turn over 15 seconds with a 1 knot dip, smoothing window 1. -/
def exPtsScore : List TPt :=
  [⟨0, 0, 0, some 5, some 0⟩, ⟨5, 0, 0, some 4, some 60⟩,
   ⟨10, 0, 0, some 5, some 60⟩, ⟨15, 0, 0, some 5, some 60⟩]

/-- Parameters for the score witness. -/
def exParamsScore : DetectParams := ⟨none, 55, 20, 1, 1, 4/5⟩

/-- Witness for maneuver_score_spec: the concrete session emits one
maneuver whose score is within [0, 100]. -/
theorem maneuver_score_spec_witness :
    mkManeuver exParamsScore exPtsScore 0 ∈ detect_maneuvers exParamsScore exPtsScore ∧
    0 ≤ (mkManeuver exParamsScore exPtsScore 0).score ∧
    (mkManeuver exParamsScore exPtsScore 0).score ≤ 100 := by
  have hdet : detect_maneuvers exParamsScore exPtsScore
      = [mkManeuver exParamsScore exPtsScore 0] := by
    norm_num [detect_maneuvers, detectLoop, exPtsScore, exParamsScore, sogS, cogS,
      sogList, cogList, movavg, unwrap_deg, unwrapGo, adjOffset, windowEnd,
      windowEndGo, tsAt, tsList, dthetaAt, speedDropAt, entryAt, vminAt,
      windowSog, listMin, List.getD]
  have hmem : mkManeuver exParamsScore exPtsScore 0
      ∈ detect_maneuvers exParamsScore exPtsScore := by
    rw [hdet]
    exact List.mem_singleton_self _
  exact ⟨hmem, (maneuver_score_spec _ _ _ hmem).2.2.1,
    (maneuver_score_spec _ _ _ hmem).2.2.2⟩

/-- C4: one step of the detector scan at a non-stationary index with a
valid window: a heading change exactly equal to theta_min together
with a speed drop exactly equal to speed_drop_min emits a maneuver and
resumes from the window end (both comparisons are inclusive), while a
window failing either inclusive comparison emits nothing and the scan
advances by one point. -/
theorem maneuver_boundary_spec (P : DetectParams) (pts : List TPt) (fuel i : ℕ)
    (hfuel : pts.length - i ≤ fuel) (hi : i < pts.length - 2)
    (hsog : ¬ ((sogS P pts).getD i 0 < P.minSogKn))
    (hwin : ¬ (windowEnd pts P.maxWindowSec i - i < 2)) :
    (dthetaAt P pts i = P.thetaMinDeg → speedDropAt P pts i = P.speedDropKn →
      detectLoop P pts fuel i
        = mkManeuver P pts i :: detectLoop P pts fuel (windowEnd pts P.maxWindowSec i)) ∧
    (¬ (P.thetaMinDeg ≤ dthetaAt P pts i ∧ P.speedDropKn ≤ speedDropAt P pts i) →
      detectLoop P pts fuel i = detectLoop P pts fuel (i + 1)) := by
  obtain ⟨f, rfl⟩ : ∃ f, fuel = f + 1 := ⟨fuel - 1, by omega⟩
  constructor
  · intro hθ hdrop
    have hcond : P.thetaMinDeg ≤ dthetaAt P pts i ∧ P.speedDropKn ≤ speedDropAt P pts i :=
      ⟨le_of_eq hθ.symm, le_of_eq hdrop.symm⟩
    simp only [detectLoop, if_pos hi, if_neg hsog, if_neg hwin, if_pos hcond]
    congr 1
    exact detectLoop_fuel P pts f (f + 1) _ (by omega) (by omega)
  · intro hcond
    simp only [detectLoop, if_pos hi, if_neg hsog, if_neg hwin, if_neg hcond]
    exact detectLoop_fuel P pts f (f + 1) (i + 1) (by omega) (by omega)

/-- Concrete four-point session for the boundary witness: heading
change exactly 55 degrees and speed drop exactly 0.8 knots. -/
def exPtsBoundary : List TPt :=
  [⟨0, 0, 0, some 5, some 0⟩, ⟨5, 0, 0, some (21/5), some 55⟩,
   ⟨10, 0, 0, some 5, some 55⟩, ⟨15, 0, 0, some 5, some 55⟩]

/-- Parameters for the boundary witness: theta_min 55, drop 0.8. -/
def exParamsBoundary : DetectParams := ⟨none, 55, 20, 1, 1, 4/5⟩

/-- Witness for maneuver_boundary_spec: at the exact thresholds the
step emits a maneuver and resumes from the window end. -/
theorem maneuver_boundary_spec_witness :
    detectLoop exParamsBoundary exPtsBoundary 4 0
      = mkManeuver exParamsBoundary exPtsBoundary 0
        :: detectLoop exParamsBoundary exPtsBoundary 4
            (windowEnd exPtsBoundary exParamsBoundary.maxWindowSec 0) :=
  (maneuver_boundary_spec exParamsBoundary exPtsBoundary 4 0
    (by norm_num [exPtsBoundary])
    (by norm_num [exPtsBoundary])
    (by norm_num [sogS, sogList, movavg, exPtsBoundary, exParamsBoundary, List.getD])
    (by norm_num [windowEnd, windowEndGo, tsAt, tsList, exPtsBoundary,
      exParamsBoundary, List.getD])).1
    (by norm_num [dthetaAt, cogS, cogList, movavg, unwrap_deg, unwrapGo, adjOffset,
      windowEnd, windowEndGo, tsAt, tsList, exPtsBoundary, exParamsBoundary, List.getD])
    (by norm_num [speedDropAt, entryAt, vminAt, windowSog, listMin, sogS, sogList,
      movavg, windowEnd, windowEndGo, tsAt, tsList, exPtsBoundary, exParamsBoundary,
      List.getD])

/-- Prior store for the baseline counterexample: boat 1 already has a
row for the bin [0,6) x [0,50). -/
def exStore1 : List BaselineRow := [⟨1, 0, 6, 0, 50, 2, 0, 10⟩]

/-- Ten historical points of boat 1 inside the bin [0,6) x [0,50). -/
def exPointsB : List BPoint := List.replicate 10 ⟨3, 20, 2⟩

/-- C1 counterexample: a force-recalculate run over a store that
already holds a row for a qualifying bin leaves two rows for that
(boat, bin) pair, refuting the at-most-one-row claim. -/
theorem baseline_force_duplicate_counterexample :
    (((calculate_baseline_for_boat (fun q => q) exStore1 1 exPointsB true).1).filter
      (rowMatches 1 0 6 0 50)).length = 2 := by
  decide

lemma replaceFirst_filter_length (l : List BaselineRow) (p q : BaselineRow → Bool)
    (f : BaselineRow → BaselineRow) (hf : ∀ r, q (f r) = q r) :
    ((replaceFirst l p f).filter q).length = (l.filter q).length := by
  induction l with
  | nil => rfl
  | cons x xs ih =>
    simp only [replaceFirst]
    by_cases hp : p x
    · rw [if_pos hp]
      simp only [List.filter_cons, hf x]
      cases hq : q x <;> simp [hq]
    · rw [if_neg hp]
      simp only [List.filter_cons]
      cases hq : q x <;> simp [hq, ih]

lemma rowMatches_update (b : ℕ) (tl th al ah : ℚ) (r : BaselineRow) (a s : ℚ) (c : ℕ) :
    rowMatches b tl th al ah { r with avgSog := a, stdSog := s, sampleCount := c }
      = rowMatches b tl th al ah r := rfl

lemma countBin_append_single (store : List BaselineRow) (r : BaselineRow)
    (b : ℕ) (tl th al ah : ℚ) :
    countBin (store ++ [r]) b tl th al ah
      = countBin store b tl th al ah + (if rowMatches b tl th al ah r then 1 else 0) := by
  simp only [countBin, List.filter_append]
  cases h : rowMatches b tl th al ah r <;> simp [h]

lemma find?_none_countBin (store : List BaselineRow) (b : ℕ) (tl th al ah : ℚ)
    (h : store.find? (rowMatches b tl th al ah) = none) :
    countBin store b tl th al ah = 0 := by
  have hall := List.find?_eq_none.mp h
  simp only [countBin, List.length_eq_zero, List.filter_eq_nil_iff]
  intro a ha
  exact hall a ha

lemma rowMatches_true_keys (b : ℕ) (tl th al ah : ℚ) (r : BaselineRow)
    (h : rowMatches b tl th al ah r = true) :
    r.boatId = b ∧ r.twsMin = tl ∧ r.twsMax = th ∧ r.twaMin = al ∧ r.twaMax = ah := by
  simp only [rowMatches, Bool.and_eq_true, beq_iff_eq] at h
  exact ⟨h.1.1.1.1, h.1.1.1.2, h.1.1.2, h.1.2, h.2⟩

lemma countBin_append_le (store : List BaselineRow) (b : ℕ) (tl th al ah : ℚ)
    (r : BaselineRow)
    (hz : rowMatches b tl th al ah r = true → countBin store b tl th al ah = 0)
    (h1 : countBin store b tl th al ah ≤ 1) :
    countBin (store ++ [r]) b tl th al ah ≤ 1 := by
  rw [countBin_append_single]
  by_cases hm : rowMatches b tl th al ah r
  · rw [hz hm]
    simp [hm]
  · simp [hm]
    exact h1

lemma baselineStep_unique (sqrtQ : ℚ → ℚ) (boatId : ℕ) (points : List BPoint)
    (st : List BaselineRow × List BaselineRow) (bin : (ℚ × ℚ) × (ℚ × ℚ))
    (h : ∀ b tl th al ah, countBin st.1 b tl th al ah ≤ 1) :
    ∀ b tl th al ah,
      countBin (baselineStep sqrtQ boatId points false st bin).1 b tl th al ah ≤ 1 := by
  intro b tl th al ah
  unfold baselineStep
  by_cases hlen : (binFilter points bin.1.1 bin.1.2 bin.2.1 bin.2.2).length < 10
  · rw [if_pos hlen]; exact h b tl th al ah
  · rw [if_neg hlen]
    by_cases hex : (st.1.find? (rowMatches boatId bin.1.1 bin.1.2 bin.2.1 bin.2.2)).isSome
    · rw [if_pos ⟨hex, rfl⟩]
      simp only [countBin]
      rw [replaceFirst_filter_length _ _ _ _ (fun r => rowMatches_update b tl th al ah r _ _ _)]
      exact h b tl th al ah
    · rw [if_neg (fun hc => hex hc.1)]
      refine countBin_append_le st.1 b tl th al ah _ ?_ (h b tl th al ah)
      intro hm
      obtain ⟨hb, h1, h2, h3, h4⟩ := rowMatches_true_keys b tl th al ah _ hm
      have hb' : boatId = b := hb
      have h1' : bin.1.1 = tl := h1
      have h2' : bin.1.2 = th := h2
      have h3' : bin.2.1 = al := h3
      have h4' : bin.2.2 = ah := h4
      subst hb' h1' h2' h3' h4'
      exact find?_none_countBin _ _ _ _ _ _ (Option.not_isSome_iff_eq_none.mp hex)

lemma baselineStep_mono (sqrtQ : ℚ → ℚ) (boatId : ℕ) (points : List BPoint)
    (force : Bool) (st : List BaselineRow × List BaselineRow)
    (bin : (ℚ × ℚ) × (ℚ × ℚ)) (b : ℕ) (tl th al ah : ℚ) :
    countBin st.1 b tl th al ah
      ≤ countBin (baselineStep sqrtQ boatId points force st bin).1 b tl th al ah := by
  unfold baselineStep
  by_cases hlen : (binFilter points bin.1.1 bin.1.2 bin.2.1 bin.2.2).length < 10
  · rw [if_pos hlen]
  · rw [if_neg hlen]
    by_cases hc : (st.1.find? (rowMatches boatId bin.1.1 bin.1.2 bin.2.1 bin.2.2)).isSome
        ∧ force = false
    · rw [if_pos hc]
      simp only [countBin]
      rw [replaceFirst_filter_length _ _ _ _ (fun r => rowMatches_update b tl th al ah r _ _ _)]
    · rw [if_neg hc, countBin_append_single]
      omega

lemma baselineFold_unique (sqrtQ : ℚ → ℚ) (boatId : ℕ) (points : List BPoint) :
    ∀ (bins : List ((ℚ × ℚ) × (ℚ × ℚ))) (st : List BaselineRow × List BaselineRow),
      (∀ b tl th al ah, countBin st.1 b tl th al ah ≤ 1) →
      ∀ b tl th al ah,
        countBin (bins.foldl (baselineStep sqrtQ boatId points false) st).1 b tl th al ah ≤ 1 := by
  intro bins
  induction bins with
  | nil => intro st h; exact h
  | cons bin rest ih =>
    intro st h
    exact ih _ (baselineStep_unique sqrtQ boatId points st bin h)

lemma baselineFold_mono (sqrtQ : ℚ → ℚ) (boatId : ℕ) (points : List BPoint)
    (force : Bool) (b : ℕ) (tl th al ah : ℚ) :
    ∀ (bins : List ((ℚ × ℚ) × (ℚ × ℚ))) (st : List BaselineRow × List BaselineRow),
      countBin st.1 b tl th al ah
        ≤ countBin (bins.foldl (baselineStep sqrtQ boatId points force) st).1 b tl th al ah := by
  intro bins
  induction bins with
  | nil => intro st; exact le_refl _
  | cons bin rest ih =>
    intro st
    exact le_trans (baselineStep_mono sqrtQ boatId points force st bin b tl th al ah) (ih _)

lemma baselineStep_force_append (sqrtQ : ℚ → ℚ) (boatId : ℕ) (points : List BPoint)
    (st : List BaselineRow × List BaselineRow) (bin : (ℚ × ℚ) × (ℚ × ℚ))
    (hlen : ¬ (binFilter points bin.1.1 bin.1.2 bin.2.1 bin.2.2).length < 10) :
    countBin (baselineStep sqrtQ boatId points true st bin).1
        boatId bin.1.1 bin.1.2 bin.2.1 bin.2.2
      = countBin st.1 boatId bin.1.1 bin.1.2 bin.2.1 bin.2.2 + 1 := by
  unfold baselineStep
  rw [if_neg hlen]
  rw [if_neg (by simp : ¬ ((st.1.find? (rowMatches boatId bin.1.1 bin.1.2 bin.2.1 bin.2.2)).isSome
      ∧ true = false))]
  rw [countBin_append_single]
  simp [rowMatches]

/-- C1 amended: a run of the baseline calculation without the
force-recalculate flag preserves the at-most-one-row-per-(boat, bin)
invariant (recomputation updates the existing row in place), whereas a
force-recalculate run, as the /baselines/calculate endpoint requests,
appends a fresh row for each qualifying bin without deleting the
existing one, so a (boat, bin) pair that already had a row ends the
run with at least two rows. -/
theorem baseline_upsert_amended (sqrtQ : ℚ → ℚ) (store : List BaselineRow)
    (boatId : ℕ) (points : List BPoint) :
    ((∀ b tl th al ah, countBin store b tl th al ah ≤ 1) →
      ∀ b tl th al ah,
        countBin (calculate_baseline_for_boat sqrtQ store boatId points false).1
          b tl th al ah ≤ 1) ∧
    (∀ bin ∈ binPairs,
      10 ≤ (binFilter points bin.1.1 bin.1.2 bin.2.1 bin.2.2).length →
      1 ≤ countBin store boatId bin.1.1 bin.1.2 bin.2.1 bin.2.2 →
      2 ≤ countBin (calculate_baseline_for_boat sqrtQ store boatId points true).1
            boatId bin.1.1 bin.1.2 bin.2.1 bin.2.2) := by
  constructor
  · intro h
    exact baselineFold_unique sqrtQ boatId points binPairs (store, []) h
  · intro bin hmem hlen hone
    obtain ⟨pre, post, hsplit⟩ := List.append_of_mem hmem
    unfold calculate_baseline_for_boat
    rw [hsplit, List.foldl_append, List.foldl_cons]
    have h1 : 1 ≤ countBin (pre.foldl (baselineStep sqrtQ boatId points true) (store, [])).1
        boatId bin.1.1 bin.1.2 bin.2.1 bin.2.2 :=
      le_trans hone (baselineFold_mono sqrtQ boatId points true _ _ _ _ _ pre (store, []))
    have h2 := baselineStep_force_append sqrtQ boatId points
      (pre.foldl (baselineStep sqrtQ boatId points true) (store, [])) bin (by omega)
    have h3 := baselineFold_mono sqrtQ boatId points true
      boatId bin.1.1 bin.1.2 bin.2.1 bin.2.2 post
      (baselineStep sqrtQ boatId points true
        (pre.foldl (baselineStep sqrtQ boatId points true) (store, [])) bin)
    omega

/-- Witness for baseline_upsert_amended at the concrete store and
points of the counterexample: the qualifying bin ends with at least
two rows after the force run. -/
theorem baseline_upsert_amended_witness :
    ((((0 : ℚ), (6 : ℚ)), ((0 : ℚ), (50 : ℚ))) ∈ binPairs ∧
      10 ≤ (binFilter exPointsB 0 6 0 50).length ∧
      1 ≤ countBin exStore1 1 0 6 0 50) ∧
    2 ≤ countBin (calculate_baseline_for_boat (fun q => q) exStore1 1 exPointsB true).1
          1 0 6 0 50 :=
  ⟨⟨by decide, by decide, by decide⟩,
    (baseline_upsert_amended (fun q => q) exStore1 1 exPointsB).2
      (((0 : ℚ), (6 : ℚ)), ((0 : ℚ), (50 : ℚ))) (by decide) (by decide) (by decide)⟩

lemma severity_chain (z : ℚ) :
    ((if z < -3 then "severe" else if z < -(5/2) then "moderate" else "minor")
        = "severe" ↔ z < -3) ∧
    ((if z < -3 then "severe" else if z < -(5/2) then "moderate" else "minor")
        = "moderate" ↔ -3 ≤ z ∧ z < -(5/2)) ∧
    ((if z < -3 then "severe" else if z < -(5/2) then "moderate" else "minor")
        = "minor" ↔ -(5/2) ≤ z) := by
  by_cases h3 : z < -3
  · refine ⟨by simp [h3], ?_, ?_⟩
    · rw [if_pos h3]
      constructor
      · intro h; exact absurd h (by decide)
      · rintro ⟨h1, _⟩; linarith
    · rw [if_pos h3]
      constructor
      · intro h; exact absurd h (by decide)
      · intro h1; linarith
  · by_cases h25 : z < -(5/2)
    · rw [if_neg h3, if_pos h25]
      refine ⟨?_, ?_, ?_⟩
      · constructor
        · intro h; exact absurd h (by decide)
        · intro h; exact absurd h h3
      · constructor
        · intro _; exact ⟨not_lt.mp h3, h25⟩
        · intro _; rfl
      · constructor
        · intro h; exact absurd h (by decide)
        · intro h; linarith
    · rw [if_neg h3, if_neg h25]
      refine ⟨?_, ?_, ?_⟩
      · constructor
        · intro h; exact absurd h (by decide)
        · intro h; exact absurd h h3
      · constructor
        · intro h; exact absurd h (by decide)
        · rintro ⟨_, h2⟩; exact absurd h2 h25
      · constructor
        · intro _; exact not_lt.mp h25
        · intro _; rfl

/-- C5: a point produces an anomaly record exactly when some baseline
bin of the boat contains its wind speed and absolute wind angle with
nonzero standard deviation and a z-score strictly below the negated
threshold (under the bin-disjointness the estimator guarantees);
severity is severe exactly when z < -3, moderate exactly when
-3 <= z < -2.5, minor otherwise; and the pass is the total filterMap
of the per-point function, so skipped points never raise. -/
theorem anomaly_detection_spec (bls : List BaselineRow) (mans : List ManSpan)
    (zthr : ℚ) (p : APoint)
    (hdisj : ∀ b1 ∈ bls, ∀ b2 ∈ bls,
      blMatch p b1 = true → blMatch p b2 = true → b1 = b2) :
    ((processPoint bls mans zthr p).isSome ↔
      ∃ bl ∈ bls, blMatch p bl = true ∧ bl.stdSog ≠ 0 ∧
        (p.sog - bl.avgSog) / bl.stdSog < -zthr) ∧
    (∀ a, processPoint bls mans zthr p = some a →
      (a.severity = "severe" ↔ a.zScore < -3) ∧
      (a.severity = "moderate" ↔ -3 ≤ a.zScore ∧ a.zScore < -(5/2)) ∧
      (a.severity = "minor" ↔ -(5/2) ≤ a.zScore)) ∧
    (∀ pts : List APoint,
      detect_anomalies bls mans zthr pts = pts.filterMap (processPoint bls mans zthr)) := by
  refine ⟨?_, ?_, fun pts => rfl⟩
  · cases hf : findBaseline bls p with
    | none =>
      simp only [processPoint, hf, Option.isSome_none, Bool.false_eq_true, false_iff]
      rintro ⟨bl, hmem, hm, _, _⟩
      exact List.find?_eq_none.mp hf bl hmem hm
    | some bl =>
      have hmem : bl ∈ bls := List.mem_of_find?_eq_some hf
      have hbl : blMatch p bl = true := List.find?_some hf
      by_cases hstd : bl.stdSog = 0
      · simp only [processPoint, hf, if_pos hstd, Option.isSome_none,
          Bool.false_eq_true, false_iff]
        rintro ⟨bl', hmem', hm', hstd', _⟩
        exact hstd' (by rw [hdisj bl' hmem' bl hmem hm' hbl]; exact hstd)
      · by_cases hz : (p.sog - bl.avgSog) / bl.stdSog < -zthr
        · simp only [processPoint, hf, if_neg hstd, if_pos hz, Option.isSome_some,
            true_iff]
          exact ⟨bl, hmem, hbl, hstd, hz⟩
        · simp only [processPoint, hf, if_neg hstd, if_neg hz, Option.isSome_none,
            Bool.false_eq_true, false_iff]
          rintro ⟨bl', hmem', hm', _, hz'⟩
          rw [hdisj bl' hmem' bl hmem hm' hbl] at hz'
          exact hz hz'
  · intro a ha
    cases hf : findBaseline bls p with
    | none =>
      simp only [processPoint, hf] at ha
      exact Option.noConfusion ha
    | some bl =>
      by_cases hstd : bl.stdSog = 0
      · simp only [processPoint, hf, if_pos hstd] at ha
        exact Option.noConfusion ha
      · by_cases hz : (p.sog - bl.avgSog) / bl.stdSog < -zthr
        · simp only [processPoint, hf, if_neg hstd, if_pos hz] at ha
          have heq := Option.some.inj ha
          subst heq
          exact severity_chain ((p.sog - bl.avgSog) / bl.stdSog)
        · simp only [processPoint, hf, if_neg hstd, if_neg hz] at ha
          exact Option.noConfusion ha

/-- Baseline store for the anomaly witness: one bin with mean 5,
standard deviation 1, twenty samples. -/
def exBls : List BaselineRow := [⟨1, 0, 6, 0, 50, 5, 1, 20⟩]

/-- A slow point inside that bin: sog 2 gives z-score -3 exactly. -/
def exAP : APoint := ⟨0, 0, 0, 2, 3, 20⟩

/-- Witness for anomaly_detection_spec: the singleton store is
disjoint and the slow point is flagged. -/
theorem anomaly_detection_spec_witness :
    (∀ b1 ∈ exBls, ∀ b2 ∈ exBls,
      blMatch exAP b1 = true → blMatch exAP b2 = true → b1 = b2) ∧
    (processPoint exBls [] 2 exAP).isSome := by
  have hdisj : ∀ b1 ∈ exBls, ∀ b2 ∈ exBls,
      blMatch exAP b1 = true → blMatch exAP b2 = true → b1 = b2 := by
    intro b1 h1 b2 h2 _ _
    simp only [exBls, List.mem_singleton] at h1 h2
    rw [h1, h2]
  refine ⟨hdisj, ?_⟩
  exact (anomaly_detection_spec exBls [] 2 exAP hdisj).1.mpr
    ⟨⟨1, 0, 6, 0, 50, 5, 1, 20⟩, by simp [exBls], by decide, by norm_num,
      by norm_num [exAP]⟩

lemma argmaxGo_mem (best : ℚ × ℚ) : ∀ l : List (ℚ × ℚ),
    argmaxGo best l = best ∨ argmaxGo best l ∈ l := by
  intro l
  induction l generalizing best with
  | nil => exact Or.inl rfl
  | cons x xs ih =>
    simp only [argmaxGo]
    by_cases h : best.2 < x.2
    · rw [if_pos h]
      rcases ih x with h1 | h1
      · refine Or.inr ?_
        rw [h1]
        exact List.mem_cons_self x xs
      · exact Or.inr (List.mem_cons_of_mem x h1)
    · rw [if_neg h]
      rcases ih best with h1 | h1
      · exact Or.inl h1
      · exact Or.inr (List.mem_cons_of_mem x h1)

lemma argmaxFirst_mem (l : List (ℚ × ℚ)) (x : ℚ × ℚ) (h : argmaxFirst l = some x) :
    x ∈ l := by
  cases l with
  | nil => exact Option.noConfusion h
  | cons a as =>
    simp only [argmaxFirst] at h
    have hx := Option.some.inj h
    rcases argmaxGo_mem a as with h1 | h1
    · rw [← hx, h1]; exact List.mem_cons_self a as
    · rw [← hx]; exact List.mem_cons_of_mem a h1

lemma vmgStats_mem (rows : List VRow) (k m : ℚ) (h : (k, m) ∈ vmgStats rows) :
    3 ≤ keyCount rows k := by
  unfold vmgStats at h
  obtain ⟨k', _, hk'⟩ := List.mem_filterMap.mp h
  by_cases h3 : 3 ≤ keyCount rows k'
  · rw [if_pos h3] at hk'
    have := Option.some.inj hk'
    have hkk : k' = k := congrArg Prod.fst this
    rwa [hkk] at h3
  · rw [if_neg h3] at hk'
    exact Option.noConfusion hk'

lemma selectOptimal_spec (rows : List VRow) (a v : ℚ) (n : ℕ)
    (h : selectOptimal rows = some (a, v, n)) :
    10 ≤ rows.length ∧ 3 ≤ keyCount rows a ∧ n = rows.length := by
  unfold selectOptimal at h
  by_cases h10 : 10 ≤ rows.length
  · rw [if_pos h10] at h
    cases harg : argmaxFirst (vmgStats rows) with
    | none => rw [harg] at h; exact Option.noConfusion h
    | some km =>
      rw [harg] at h
      have heq := Option.some.inj h
      have hk : km.1 = a := congrArg (fun t => t.1) heq
      have hn : rows.length = n := congrArg (fun t => t.2.2) heq
      have hmem : km ∈ vmgStats rows := argmaxFirst_mem _ _ harg
      have hkm : (km.1, km.2) = km := rfl
      rw [← hk]
      exact ⟨h10, vmgStats_mem rows km.1 km.2 (hkm ▸ hmem), hn.symm⟩
  · rw [if_neg h10] at h
    exact Option.noConfusion h

lemma vmgBinOpt_spec (r2fn : List VRow → ℚ) (data : List VRow) (b : ℚ × ℚ)
    (o : VMGOpt) (h : vmgBinOpt r2fn data b = some o) :
    o.twsMin = b.1 ∧ o.twsMax = b.2 ∧
    20 ≤ (binRows data b.1 b.2).length ∧
    o.upwind = selectOptimal (upRows data b.1 b.2) ∧
    o.downwind = selectOptimal (downRows data b.1 b.2) := by
  unfold vmgBinOpt at h
  by_cases h20 : (binRows data b.1 b.2).length < 20
  · rw [if_pos h20] at h
    exact Option.noConfusion h
  · rw [if_neg h20] at h
    by_cases hnn : selectOptimal (upRows data b.1 b.2) = none
        ∧ selectOptimal (downRows data b.1 b.2) = none
    · rw [if_pos hnn] at h
      exact Option.noConfusion h
    · rw [if_neg hnn] at h
      have heq := Option.some.inj h
      rw [← heq]
      exact ⟨rfl, rfl, by omega, rfl, rfl⟩

/-- C6: the VMG optimizer returns the insufficient-data error below 50
usable points; every emitted optimization has at least 20 DataFrame
rows in its wind-speed bin; and every recorded optimal upwind or
downwind angle is an angle-bin key holding at least 3 samples inside a
half subset of at least 10 rows. -/
theorem vmg_optimizer_spec (cosd : ℚ → ℚ) (r2fn : List VRow → ℚ)
    (points : List VPoint) :
    (points.length < 50 →
      optimize_vmg_for_boat cosd r2fn points
        = Except.error "Insufficient data for VMG optimization (need at least 50 points)") ∧
    (∀ res, optimize_vmg_for_boat cosd r2fn points = Except.ok res →
      ∀ o ∈ res,
        20 ≤ (binRows (vmgData cosd points) o.twsMin o.twsMax).length ∧
        (∀ a v n, o.upwind = some (a, v, n) →
          10 ≤ (upRows (vmgData cosd points) o.twsMin o.twsMax).length ∧
          3 ≤ keyCount (upRows (vmgData cosd points) o.twsMin o.twsMax) a) ∧
        (∀ a v n, o.downwind = some (a, v, n) →
          10 ≤ (downRows (vmgData cosd points) o.twsMin o.twsMax).length ∧
          3 ≤ keyCount (downRows (vmgData cosd points) o.twsMin o.twsMax) a)) := by
  constructor
  · intro h50
    rw [optimize_vmg_for_boat, if_pos h50]
  · intro res hres o ho
    by_cases h50 : points.length < 50
    · rw [optimize_vmg_for_boat, if_pos h50] at hres
      exact Except.noConfusion hres
    · rw [optimize_vmg_for_boat, if_neg h50] at hres
      have hres' := Except.ok.inj hres
      rw [← hres'] at ho
      obtain ⟨b, _, hfb⟩ := List.mem_filterMap.mp ho
      obtain ⟨h1, h2, h3, h4, h5⟩ := vmgBinOpt_spec r2fn (vmgData cosd points) b o hfb
      rw [h1, h2]
      refine ⟨h3, ?_, ?_⟩
      · intro a v n hup
        rw [h4] at hup
        have hs := selectOptimal_spec _ _ _ _ hup
        exact ⟨hs.1, hs.2.1⟩
      · intro a v n hdn
        rw [h5] at hdn
        have hs := selectOptimal_spec _ _ _ _ hdn
        exact ⟨hs.1, hs.2.1⟩

lemma filterMap_replicate_some {α β : Type} (f : α → Option β) (n : ℕ) (a : α) (b : β)
    (h : f a = some b) :
    (List.replicate n a).filterMap f = List.replicate n b := by
  induction n with
  | zero => simp
  | succ m ih =>
    rw [List.replicate_succ, List.filterMap_cons, h, List.replicate_succ, ih]

lemma filter_replicate_pos {α : Type} (p : α → Bool) (n : ℕ) (a : α) (h : p a = true) :
    (List.replicate n a).filter p = List.replicate n a := by
  induction n with
  | zero => simp
  | succ m ih =>
    rw [List.replicate_succ, List.filter_cons, if_pos h, ih]

lemma filter_replicate_neg {α : Type} (p : α → Bool) (n : ℕ) (a : α) (h : p a = false) :
    (List.replicate n a).filter p = [] := by
  induction n with
  | zero => simp
  | succ m ih =>
    rw [List.replicate_succ, List.filter_cons, if_neg (by simp [h]), ih]

lemma dedup_replicate {α : Type} [DecidableEq α] (n : ℕ) (a : α) (h : n ≠ 0) :
    (List.replicate n a).dedup = [a] := by
  induction n with
  | zero => exact absurd rfl h
  | succ m ih =>
    cases m with
    | zero => simp
    | succ k =>
      rw [List.replicate_succ,
        List.dedup_cons_of_mem (by simp [List.mem_replicate])]
      exact ih (by omega)

/-- The single DataFrame row of the VMG witness data. -/
def exVRow : VRow := ⟨8, 45, 5, 5⟩

/-- Fifty identical usable points for the VMG witness. -/
def exVPts : List VPoint := List.replicate 50 ⟨8, 45, 5⟩

/-- The optimization the witness run emits for the bin [6, 12). -/
def exVOpt : VMGOpt := ⟨6, 12, some (45, 5, 50), none, 0, 50, 50, 0⟩

lemma exV_data : vmgData (fun _ => 1) exVPts = List.replicate 50 exVRow := by
  unfold vmgData exVPts
  refine filterMap_replicate_some _ _ _ _ ?_
  norm_num [calculate_vmg_from_point, exVRow, abs_of_pos]

lemma exV_twaBin : twaBin5 (45 : ℚ) = 45 := by
  norm_num [twaBin5, pythonRound]

lemma exV_pred : (decide (twaBin5 (exVRow.twa) = (45 : ℚ))) = true := by
  rw [show exVRow.twa = 45 from rfl, exV_twaBin]
  simp

lemma exV_count : keyCount (List.replicate 50 exVRow) 45 = 50 := by
  unfold keyCount
  have h := filter_replicate_pos (fun r : VRow => decide (twaBin5 r.twa = (45 : ℚ)))
    50 exVRow exV_pred
  rw [h]
  simp

lemma exV_mean : keyMean (List.replicate 50 exVRow) 45 = 5 := by
  unfold keyMean
  have h := filter_replicate_pos (fun r : VRow => decide (twaBin5 r.twa = (45 : ℚ)))
    50 exVRow exV_pred
  rw [h, List.map_replicate, exV_count, List.sum_replicate]
  rw [show exVRow.vmg = 5 from rfl]
  norm_num

lemma exV_keys : groupKeys (List.replicate 50 exVRow) = [45] := by
  unfold groupKeys
  rw [List.map_replicate, show exVRow.twa = 45 from rfl, exV_twaBin,
    dedup_replicate 50 _ (by norm_num)]
  simp [List.insertionSort, List.orderedInsert]

lemma exV_stats : vmgStats (List.replicate 50 exVRow) = [(45, 5)] := by
  unfold vmgStats
  rw [exV_keys]
  simp only [List.filterMap_cons, List.filterMap_nil]
  rw [exV_count, exV_mean]
  norm_num

lemma exV_selUp : selectOptimal (List.replicate 50 exVRow) = some (45, 5, 50) := by
  unfold selectOptimal
  rw [if_pos (by simp : (10 : ℕ) ≤ (List.replicate 50 exVRow).length)]
  rw [exV_stats]
  simp [argmaxFirst, argmaxGo]

lemma exV_selDown : selectOptimal ([] : List VRow) = none := by
  simp [selectOptimal]

lemma exV_bin06 : vmgBinOpt (fun _ => 0) (List.replicate 50 exVRow) ((0 : ℚ), (6 : ℚ))
    = none := by
  unfold vmgBinOpt
  have hbd : binRows (List.replicate 50 exVRow) ((0 : ℚ), (6 : ℚ)).1 ((0 : ℚ), (6 : ℚ)).2
      = [] :=
    filter_replicate_neg (fun r : VRow => decide ((0 : ℚ) ≤ r.tws ∧ r.tws < 6))
      50 exVRow (by decide)
  rw [hbd]
  simp

lemma exV_bin1218 : vmgBinOpt (fun _ => 0) (List.replicate 50 exVRow) ((12 : ℚ), (18 : ℚ))
    = none := by
  unfold vmgBinOpt
  have hbd : binRows (List.replicate 50 exVRow) ((12 : ℚ), (18 : ℚ)).1
      ((12 : ℚ), (18 : ℚ)).2 = [] :=
    filter_replicate_neg (fun r : VRow => decide ((12 : ℚ) ≤ r.tws ∧ r.tws < 18))
      50 exVRow (by decide)
  rw [hbd]
  simp

lemma exV_bin1830 : vmgBinOpt (fun _ => 0) (List.replicate 50 exVRow) ((18 : ℚ), (30 : ℚ))
    = none := by
  unfold vmgBinOpt
  have hbd : binRows (List.replicate 50 exVRow) ((18 : ℚ), (30 : ℚ)).1
      ((18 : ℚ), (30 : ℚ)).2 = [] :=
    filter_replicate_neg (fun r : VRow => decide ((18 : ℚ) ≤ r.tws ∧ r.tws < 30))
      50 exVRow (by decide)
  rw [hbd]
  simp

lemma exV_bin612 : vmgBinOpt (fun _ => 0) (List.replicate 50 exVRow) ((6 : ℚ), (12 : ℚ))
    = some exVOpt := by
  unfold vmgBinOpt
  have hbd : binRows (List.replicate 50 exVRow) ((6 : ℚ), (12 : ℚ)).1
      ((6 : ℚ), (12 : ℚ)).2 = List.replicate 50 exVRow :=
    filter_replicate_pos (fun r : VRow => decide ((6 : ℚ) ≤ r.tws ∧ r.tws < 12))
      50 exVRow (by decide)
  have hupr : upRows (List.replicate 50 exVRow) ((6 : ℚ), (12 : ℚ)).1
      ((6 : ℚ), (12 : ℚ)).2 = List.replicate 50 exVRow := by
    unfold upRows
    rw [hbd]
    exact filter_replicate_pos (fun r : VRow => decide (r.twa < (90 : ℚ)))
      50 exVRow (by decide)
  have hdnr : downRows (List.replicate 50 exVRow) ((6 : ℚ), (12 : ℚ)).1
      ((6 : ℚ), (12 : ℚ)).2 = [] := by
    unfold downRows
    rw [hbd]
    exact filter_replicate_neg (fun r : VRow => decide ((90 : ℚ) ≤ r.twa))
      50 exVRow (by decide)
  rw [hbd, hupr, hdnr, exV_selUp, exV_selDown]
  rw [if_neg (by simp : ¬ ((List.replicate 50 exVRow).length < 20))]
  rw [if_neg (by simp : ¬ ((some ((45 : ℚ), (5 : ℚ), 50) = none)
    ∧ (none : Option (ℚ × ℚ × ℕ)) = none))]
  simp only [exVOpt, List.length_replicate, List.length_nil]
  norm_num

lemma exV_eval : optimize_vmg_for_boat (fun _ => 1) (fun _ => 0) exVPts
    = Except.ok [exVOpt] := by
  unfold optimize_vmg_for_boat
  rw [if_neg (by simp [exVPts] : ¬ (exVPts.length < 50))]
  rw [exV_data]
  rw [show twsBins = [((0 : ℚ), (6 : ℚ)), ((6 : ℚ), (12 : ℚ)), ((12 : ℚ), (18 : ℚ)),
    ((18 : ℚ), (30 : ℚ))] from rfl]
  simp only [List.filterMap_cons, List.filterMap_nil]
  rw [exV_bin06, exV_bin612, exV_bin1218, exV_bin1830]

/-- Witness for vmg_optimizer_spec: fifty identical points in the
[6, 12) bin produce exactly one optimization whose upwind angle bin
holds at least 3 samples in a half of at least 10 rows. -/
theorem vmg_optimizer_spec_witness :
    optimize_vmg_for_boat (fun _ => 1) (fun _ => 0) exVPts = Except.ok [exVOpt] ∧
    10 ≤ (upRows (vmgData (fun _ => 1) exVPts) exVOpt.twsMin exVOpt.twsMax).length ∧
    3 ≤ keyCount (upRows (vmgData (fun _ => 1) exVPts) exVOpt.twsMin exVOpt.twsMax) 45 := by
  have h := ((vmg_optimizer_spec (fun _ => 1) (fun _ => 0) exVPts).2 [exVOpt] exV_eval
    exVOpt (List.mem_singleton_self _)).2.1 45 5 50 rfl
  exact ⟨exV_eval, h.1, h.2⟩

/-- Thirty recent points for the C2 counterexample: ten with TWD 100
followed by twenty with TWD 80, a 20 degree right shift. -/
def exCPts : List CPoint :=
  List.replicate 10 ⟨some 10, some 50, some 50⟩
    ++ List.replicate 20 ⟨some 10, some 30, some 50⟩

lemma exC_samples : windSamples exCPts
    = List.replicate 10 (100 : ℚ) ++ List.replicate 20 (80 : ℚ) := by
  unfold windSamples exCPts
  rw [List.take_of_length_le (by simp)]
  rw [List.filterMap_append]
  have h1 := filterMap_replicate_some
    (fun pt : CPoint =>
      if truthy pt.tws && truthy pt.twa && truthy pt.cog
      then some (pymod (pt.cog.getD 0 + pt.twa.getD 0) 360)
      else none)
    10 ⟨some 10, some 50, some 50⟩ (100 : ℚ) (by norm_num [truthy, pymod])
  have h2 := filterMap_replicate_some
    (fun pt : CPoint =>
      if truthy pt.tws && truthy pt.twa && truthy pt.cog
      then some (pymod (pt.cog.getD 0 + pt.twa.getD 0) 360)
      else none)
    20 ⟨some 10, some 30, some 50⟩ (80 : ℚ) (by norm_num [truthy, pymod])
  rw [h1, h2]

lemma exC_recent : recentTwdOf exCPts = 100 := by
  unfold recentTwdOf
  rw [exC_samples]
  simp [List.take_append_eq_append_take, List.take_replicate, List.sum_replicate,
    nsmul_eq_mul]
  norm_num

lemma exC_earlier : earlierTwdOf exCPts = 80 := by
  unfold earlierTwdOf
  rw [exC_samples]
  simp [List.drop_append_eq_append_drop, List.drop_replicate,
    List.take_append_eq_append_take, List.take_replicate, List.sum_replicate,
    nsmul_eq_mul]
  norm_num

lemma exC_shift : shiftOf exCPts = 20 := by
  unfold shiftOf
  rw [exC_recent, exC_earlier]
  norm_num [normShift]

/-- C2 counterexample: thirty recent points with full wind data and a
20 degree right shift, while the boat is sailing downwind, emit no
recommendation at all, refuting the claim that right and left shifts
alert alike regardless of the sailing mode. -/
theorem coaching_wind_shift_counterexample :
    30 ≤ exCPts.length ∧ 20 ≤ (windSamples exCPts).length ∧
    shiftOf exCPts = 20 ∧
    windShiftSection exCPts false = [] := by
  refine ⟨by simp [exCPts], by rw [exC_samples]; simp, exC_shift, ?_⟩
  unfold windShiftSection
  rw [if_pos (by simp [exCPts] : (30 : ℕ) ≤ exCPts.length)]
  rw [if_pos (by rw [exC_samples]; simp : (20 : ℕ) ≤ (windSamples exCPts).length)]
  rw [if_pos (by rw [exC_shift]; norm_num : (10 : ℚ) < |shiftOf exCPts|)]
  rw [if_pos (by rw [exC_shift]; norm_num : (0 : ℚ) < shiftOf exCPts)]
  simp

/-- C2 amended: under the same sample and magnitude conditions, a left
shift (negative, beyond 10 degrees) always emits the high-priority
confidence-70 wind_shift_detected recommendation, while a right shift
emits it only when the boat is sailing upwind; a right shift while
downwind emits nothing. -/
theorem coaching_wind_shift_amended (recent : List CPoint) (isUpwind : Bool)
    (h30 : 30 ≤ recent.length) (h20 : 20 ≤ (windSamples recent).length)
    (h10 : 10 < |shiftOf recent|) :
    (shiftOf recent < 0 →
      windShiftSection recent isUpwind
        = [⟨"wind_shift_detected", "high", 70, "left",
            pythonRoundTo (shiftOf recent) 1,
            pythonRoundTo (earlierTwdOf recent) 0,
            pythonRoundTo (recentTwdOf recent) 0⟩]) ∧
    (0 < shiftOf recent → isUpwind = true →
      windShiftSection recent isUpwind
        = [⟨"wind_shift_detected", "high", 70, "right",
            pythonRoundTo (shiftOf recent) 1,
            pythonRoundTo (earlierTwdOf recent) 0,
            pythonRoundTo (recentTwdOf recent) 0⟩]) ∧
    (0 < shiftOf recent → isUpwind = false →
      windShiftSection recent isUpwind = []) := by
  unfold windShiftSection
  rw [if_pos h30, if_pos h20, if_pos h10]
  refine ⟨?_, ?_, ?_⟩
  · intro hneg
    rw [if_neg (by linarith : ¬ (0 : ℚ) < shiftOf recent)]
  · intro hpos hup
    subst hup
    rw [if_pos hpos]
    simp
  · intro hpos hdown
    subst hdown
    rw [if_pos hpos]
    simp

/-- Thirty recent points for the C2 amended witness: ten with TWD 80
followed by twenty with TWD 100, a 20 degree left shift. -/
def exCPtsL : List CPoint :=
  List.replicate 10 ⟨some 10, some 30, some 50⟩
    ++ List.replicate 20 ⟨some 10, some 50, some 50⟩

lemma exCL_samples : windSamples exCPtsL
    = List.replicate 10 (80 : ℚ) ++ List.replicate 20 (100 : ℚ) := by
  unfold windSamples exCPtsL
  rw [List.take_of_length_le (by simp)]
  rw [List.filterMap_append]
  have h1 := filterMap_replicate_some
    (fun pt : CPoint =>
      if truthy pt.tws && truthy pt.twa && truthy pt.cog
      then some (pymod (pt.cog.getD 0 + pt.twa.getD 0) 360)
      else none)
    10 ⟨some 10, some 30, some 50⟩ (80 : ℚ) (by norm_num [truthy, pymod])
  have h2 := filterMap_replicate_some
    (fun pt : CPoint =>
      if truthy pt.tws && truthy pt.twa && truthy pt.cog
      then some (pymod (pt.cog.getD 0 + pt.twa.getD 0) 360)
      else none)
    20 ⟨some 10, some 50, some 50⟩ (100 : ℚ) (by norm_num [truthy, pymod])
  rw [h1, h2]

lemma exCL_shift : shiftOf exCPtsL = -20 := by
  unfold shiftOf recentTwdOf earlierTwdOf
  rw [exCL_samples]
  simp [List.take_append_eq_append_take, List.take_replicate,
    List.drop_append_eq_append_drop, List.drop_replicate, List.sum_replicate,
    nsmul_eq_mul]
  norm_num [normShift]

/-- Witness for coaching_wind_shift_amended: a concrete 20 degree left
shift while downwind emits exactly the left alert. -/
theorem coaching_wind_shift_amended_witness :
    (30 ≤ exCPtsL.length ∧ 20 ≤ (windSamples exCPtsL).length ∧
      (10 : ℚ) < |shiftOf exCPtsL| ∧ shiftOf exCPtsL < 0) ∧
    windShiftSection exCPtsL false
      = [⟨"wind_shift_detected", "high", 70, "left",
          pythonRoundTo (shiftOf exCPtsL) 1,
          pythonRoundTo (earlierTwdOf exCPtsL) 0,
          pythonRoundTo (recentTwdOf exCPtsL) 0⟩] := by
  have h30 : (30 : ℕ) ≤ exCPtsL.length := by simp [exCPtsL]
  have h20 : (20 : ℕ) ≤ (windSamples exCPtsL).length := by rw [exCL_samples]; simp
  have h10 : (10 : ℚ) < |shiftOf exCPtsL| := by rw [exCL_shift]; norm_num
  have hneg : shiftOf exCPtsL < 0 := by rw [exCL_shift]; norm_num
  exact ⟨⟨h30, h20, h10, hneg⟩,
    (coaching_wind_shift_amended exCPtsL false h30 h20 h10).1 hneg⟩

lemma chain'_drop {α : Type} (R : α → α → Prop) :
    ∀ (l : List α) (n : ℕ), List.Chain' R l → List.Chain' R (l.drop n) := by
  intro l
  induction l with
  | nil => intro n _; simp
  | cons a tl ih =>
    intro n h
    cases n with
    | zero => exact h
    | succ m => exact ih m h.tail

lemma classifyGo_flag (s : DetShift) : ∀ rest, (classifyGo s rest).1 = true ∨
    ((classifyGo s rest).1 = false ∧ (classifyGo s rest).2.1 = true) := by
  intro rest
  induction rest with
  | nil => exact Or.inr ⟨rfl, rfl⟩
  | cons n tl ih =>
    simp only [classifyGo]
    by_cases h15 : (n.startTs - s.startTs) / 60 < 15
    · rw [if_pos h15]
      by_cases hd : s.direction ≠ n.direction
      · rw [if_pos hd]
        exact Or.inl rfl
      · rw [if_neg hd]
        exact ih
    · rw [if_neg h15]
      exact Or.inr ⟨rfl, rfl⟩

lemma classifyShifts_types : ∀ (shifts : List DetShift), ∀ c ∈ classifyShifts shifts,
    c.shiftType = "oscillating" ∨ c.shiftType = "persistent" := by
  intro shifts
  induction shifts with
  | nil => intro c hc; simp [classifyShifts] at hc
  | cons s rest ih =>
    intro c hc
    rcases List.mem_cons.mp hc with rfl | h
    · unfold classifyOne
      rcases classifyGo_flag s rest with h1 | ⟨h1, h2⟩
      · rw [if_pos h1]
        exact Or.inl rfl
      · rw [if_neg (by simp [h1]), if_pos h2]
        exact Or.inr rfl
    · exact ih c h

/-- C10: every record the wind shift detector classifies is either
oscillating or persistent; the transient branch is unreachable since
the lookahead leaves the is_persistent flag set whenever it does not
set is_oscillating. -/
theorem windshift_no_transient :
    (∀ (points : List WPoint) (minShift : ℚ) (wm : ℕ) (res : List ClassifiedShift),
      detect_wind_shifts points minShift wm = Except.ok res →
      ∀ c ∈ res, c.shiftType = "oscillating" ∨ c.shiftType = "persistent") ∧
    (∀ (shifts : List DetShift), ∀ c ∈ classifyShifts shifts,
      c.shiftType = "oscillating" ∨ c.shiftType = "persistent") := by
  refine ⟨?_, classifyShifts_types⟩
  intro points minShift wm res hres c hc
  by_cases h20 : points.length < 20
  · rw [detect_wind_shifts, if_pos h20] at hres
    exact Except.noConfusion hres
  · rw [detect_wind_shifts, if_neg h20] at hres
    have hres' := Except.ok.inj hres
    rw [← hres'] at hc
    exact classifyShifts_types _ c hc

lemma classifyGo_eq (s : DetShift) : ∀ (rest : List DetShift),
    List.Chain' (fun a b => a.startTs ≤ b.startTs) rest →
    classifyGo s rest = match rest.find? (reversalPred s) with
      | some n => (true, false, some ((n.startTs - s.startTs) / 60))
      | none => (false, true, none) := by
  intro rest
  induction rest with
  | nil => intro _; rfl
  | cons n tl ih =>
    intro hch
    simp only [classifyGo, List.find?]
    by_cases h15 : (n.startTs - s.startTs) / 60 < 15
    · by_cases hd : s.direction ≠ n.direction
      · rw [if_pos h15, if_pos hd]
        have hp : reversalPred s n = true := by
          unfold reversalPred
          exact decide_eq_true ⟨h15, hd⟩
        rw [hp]
      · rw [if_pos h15, if_neg hd]
        have hp : reversalPred s n = false := by
          unfold reversalPred
          simp only [decide_eq_false_iff_not]
          rintro ⟨_, hcontra⟩
          exact hd hcontra
        rw [hp]
        exact ih hch.tail
    · rw [if_neg h15]
      have hp : reversalPred s n = false := by
        unfold reversalPred
        simp only [decide_eq_false_iff_not]
        rintro ⟨hcontra, _⟩
        exact h15 hcontra
      rw [hp]
      have hnone : tl.find? (reversalPred s) = none := by
        rw [List.find?_eq_none]
        intro m hm
        unfold reversalPred
        simp only [decide_eq_true_eq]
        rintro ⟨hlt, _⟩
        have hmono : n.startTs ≤ m.startTs := by
          haveI : IsTrans DetShift (fun a b => a.startTs ≤ b.startTs) :=
            ⟨fun _ _ _ h1 h2 => le_trans h1 h2⟩
          have hp2 := List.chain'_iff_pairwise.mp hch
          exact (List.pairwise_cons.mp hp2).1 m hm
        have h2 : (n.startTs - s.startTs) / 60 ≤ (m.startTs - s.startTs) / 60 :=
          (div_le_div_iff_of_pos_right (by norm_num : (0 : ℚ) < 60)).mpr (by linarith)
        rw [not_lt] at h15
        linarith
      rw [hnone]

lemma classifyOne_eq (s : DetShift) (rest : List DetShift)
    (hch : List.Chain' (fun a b => a.startTs ≤ b.startTs) rest) :
    classifyOne s rest = match rest.find? (reversalPred s) with
      | some n => ⟨s, "oscillating", 4/5, some ((n.startTs - s.startTs) / 60)⟩
      | none => ⟨s, "persistent", 9/10, none⟩ := by
  unfold classifyOne
  rw [classifyGo_eq s rest hch]
  cases hf : rest.find? (reversalPred s) with
  | some n => simp
  | none => simp

lemma classifyShifts_getD : ∀ (shifts : List DetShift) (i : ℕ), i < shifts.length →
    (classifyShifts shifts).getD i dfltClassified
      = classifyOne (shifts.getD i dfltShift) (shifts.drop (i + 1)) := by
  intro shifts
  induction shifts with
  | nil => intro i hi; simp at hi
  | cons s rest ih =>
    intro i hi
    cases i with
    | zero => rfl
    | succ n =>
      simp only [classifyShifts, List.getD_cons_succ, List.drop_succ_cons]
      exact ih n (by simpa using hi)

lemma chain'_append_singleton {α : Type} (R : α → α → Prop) (l : List α) (x : α)
    (hch : List.Chain' R l) (hlast : ∀ y ∈ l, R y x) :
    List.Chain' R (l ++ [x]) := by
  rw [List.chain'_append]
  refine ⟨hch, List.chain'_singleton x, ?_⟩
  intro y hy z hz
  obtain ⟨hne, rfl⟩ := List.mem_getLast?_eq_getLast hy
  have hz' : x = z := by simpa using hz
  rw [← hz']
  exact hlast _ (List.getLast_mem hne)

lemma tsD_mono (tds : List TwdPt)
    (hch : List.Chain' (fun a b => a.ts ≤ b.ts) tds) :
    ∀ k l, k ≤ l → l < tds.length → tsD tds k ≤ tsD tds l := by
  haveI : IsTrans TwdPt (fun a b => a.ts ≤ b.ts) := ⟨fun _ _ _ h1 h2 => le_trans h1 h2⟩
  intro k l hkl hl
  rcases eq_or_lt_of_le hkl with rfl | hlt
  · exact le_refl _
  · have hp := List.chain'_iff_pairwise.mp hch
    have hg := List.pairwise_iff_get.mp hp ⟨k, by omega⟩ ⟨l, hl⟩ hlt
    have h1 : tds.getD k ⟨0, 0, 0⟩ = tds.get ⟨k, by omega⟩ := by
      rw [List.getD_eq_getElem?_getD, List.getElem?_eq_getElem (by omega)]
      simp
    have h2 : tds.getD l ⟨0, 0, 0⟩ = tds.get ⟨l, hl⟩ := by
      rw [List.getD_eq_getElem?_getD, List.getElem?_eq_getElem hl]
      simp
    unfold tsD
    rw [h1, h2]
    exact hg

lemma scanStep_cases (tds : List TwdPt) (minShift ws : ℚ) (acc : List DetShift) (i : ℕ) :
    scanStep tds minShift ws acc i = acc ∨
    ∃ r, scanStep tds minShift ws acc i = acc ++ [r] ∧ r.startTs = tsD tds i := by
  unfold scanStep
  by_cases h1 : (beforeWin tds ws i).length < 5 ∨ (afterWin tds ws i).length < 5
  · rw [if_pos h1]
    exact Or.inl rfl
  · rw [if_neg h1]
    by_cases h2 : minShift ≤ |shiftAt tds ws i|
    · rw [if_pos h2]
      by_cases h3 : acc.all (fun prev => decide (¬ (tsD tds i - prev.startTs < ws))) = true
      · rw [if_pos h3]
        exact Or.inr ⟨_, rfl, rfl⟩
      · rw [if_neg h3]
        exact Or.inl rfl
    · rw [if_neg h2]
      exact Or.inl rfl

lemma detectedAux (tds : List TwdPt) (minShift ws : ℚ)
    (hmono : ∀ k l, k ≤ l → l < tds.length → tsD tds k ≤ tsD tds l) :
    ∀ n, n ≤ tds.length - 1 →
      List.Chain' (fun a b => a.startTs ≤ b.startTs)
        ((List.range n).foldl (scanStep tds minShift ws) []) ∧
      ∀ prev ∈ (List.range n).foldl (scanStep tds minShift ws) [],
        ∃ k, k < n ∧ prev.startTs = tsD tds k := by
  intro n
  induction n with
  | zero => intro _; exact ⟨List.chain'_nil, by simp⟩
  | succ m ih =>
    intro hm
    obtain ⟨hch, hbound⟩ := ih (by omega)
    rw [List.range_succ, List.foldl_append, List.foldl_cons, List.foldl_nil]
    rcases scanStep_cases tds minShift ws
        ((List.range m).foldl (scanStep tds minShift ws) []) m with heq | ⟨r, heq, hr⟩
    · rw [heq]
      refine ⟨hch, fun prev hp => ?_⟩
      obtain ⟨k, hk, he⟩ := hbound prev hp
      exact ⟨k, by omega, he⟩
    · rw [heq]
      have hmlen : m < tds.length := by omega
      constructor
      · apply chain'_append_singleton _ _ _ hch
        intro y hy
        obtain ⟨k, hk, he⟩ := hbound y hy
        rw [he, hr]
        exact hmono k m (by omega) hmlen
      · intro prev hp
        rcases List.mem_append.mp hp with h | h
        · obtain ⟨k, hk, he⟩ := hbound prev h
          exact ⟨k, by omega, he⟩
        · have hpr : prev = r := List.mem_singleton.mp h
          exact ⟨m, by omega, hpr ▸ hr⟩

/-- C7: the detector output is the classification pass over the
detected shifts; when the input points are chronologically ordered the
detected shifts are chronologically ordered; and for a chronologically
ordered shift list, a shift whose lookahead finds a first reversing
shift (opposite direction, starting within 15 minutes) is classified
oscillating with confidence 0.8 and the time gap to that reversing
shift as oscillation period, while a shift with no such reversal is
classified persistent with confidence 0.9; the lookahead finds a
reversing shift exactly when one exists among the later shifts. -/
theorem wind_shift_classification_spec :
    (∀ (points : List WPoint) (minShift : ℚ) (wm : ℕ) (res : List ClassifiedShift),
      detect_wind_shifts points minShift wm = Except.ok res →
      20 ≤ points.length ∧
      res = classifyShifts (detectedShifts (twdData points) minShift ((wm : ℚ) * 60))) ∧
    (∀ (points : List WPoint), List.Chain' (fun a b => a.ts ≤ b.ts) points →
      ∀ (minShift ws : ℚ), List.Chain' (fun a b => a.startTs ≤ b.startTs)
        (detectedShifts (twdData points) minShift ws)) ∧
    (∀ (shifts : List DetShift), List.Chain' (fun a b => a.startTs ≤ b.startTs) shifts →
      ∀ i, i < shifts.length →
        (∀ n, (shifts.drop (i + 1)).find? (reversalPred (shifts.getD i dfltShift)) = some n →
          (classifyShifts shifts).getD i dfltClassified
            = ⟨shifts.getD i dfltShift, "oscillating", 4/5,
               some ((n.startTs - (shifts.getD i dfltShift).startTs) / 60)⟩) ∧
        ((shifts.drop (i + 1)).find? (reversalPred (shifts.getD i dfltShift)) = none →
          (classifyShifts shifts).getD i dfltClassified
            = ⟨shifts.getD i dfltShift, "persistent", 9/10, none⟩) ∧
        (((shifts.drop (i + 1)).find? (reversalPred (shifts.getD i dfltShift))).isSome ↔
          ∃ n ∈ shifts.drop (i + 1), reversalPred (shifts.getD i dfltShift) n = true)) := by
  refine ⟨?_, ?_, ?_⟩
  · intro points minShift wm res hres
    by_cases h20 : points.length < 20
    · rw [detect_wind_shifts, if_pos h20] at hres
      exact Except.noConfusion hres
    · rw [detect_wind_shifts, if_neg h20] at hres
      exact ⟨by omega, (Except.ok.inj hres).symm⟩
  · intro points hch minShift ws
    have hch' : List.Chain' (fun a b => a.ts ≤ b.ts) (twdData points) := by
      unfold twdData
      exact (List.chain'_map _).mpr hch
    have hmono := tsD_mono (twdData points) hch'
    exact (detectedAux (twdData points) minShift ws hmono
      ((twdData points).length - 1) (by omega)).1
  · intro shifts hch i hi
    rw [classifyShifts_getD shifts i hi]
    have hdropch := chain'_drop (fun a b => a.startTs ≤ b.startTs) shifts (i + 1) hch
    rw [classifyOne_eq _ _ hdropch]
    refine ⟨?_, ?_, List.find?_isSome⟩
    · intro n hn
      rw [hn]
    · intro hn
      rw [hn]

/-- A right shift at second 0 for the classification witnesses. -/
def exShiftA : DetShift := ⟨0, 10, 10, "right", 100, 110, 10, 10⟩

/-- A left shift at second 300 (5 minutes later). -/
def exShiftB : DetShift := ⟨300, 310, 10, "left", 110, 100, 10, 10⟩

/-- The two-shift chronological list: a reversal within 15 minutes. -/
def exShifts : List DetShift := [exShiftA, exShiftB]

/-- Witness for wind_shift_classification_spec: with a left shift 5
minutes after a right shift, the earlier record is classified
oscillating with confidence 0.8 and period 5 minutes. -/
theorem wind_shift_classification_spec_witness :
    (List.Chain' (fun a b => a.startTs ≤ b.startTs) exShifts ∧
      (exShifts.drop 1).find? (reversalPred (exShifts.getD 0 dfltShift))
        = some exShiftB) ∧
    (classifyShifts exShifts).getD 0 dfltClassified
      = ⟨exShifts.getD 0 dfltShift, "oscillating", 4/5,
         some ((exShiftB.startTs - (exShifts.getD 0 dfltShift).startTs) / 60)⟩ := by
  have hch : List.Chain' (fun a b => a.startTs ≤ b.startTs) exShifts := by
    unfold exShifts
    rw [List.chain'_cons]
    exact ⟨by norm_num [exShiftA, exShiftB], List.chain'_singleton _⟩
  have hfind : (exShifts.drop 1).find? (reversalPred (exShifts.getD 0 dfltShift))
      = some exShiftB := by
    have hp : reversalPred (exShifts.getD 0 dfltShift) exShiftB = true := by
      unfold reversalPred exShifts exShiftA exShiftB
      simp only [decide_eq_true_eq]
      constructor
      · norm_num
      · decide
    unfold exShifts
    simp only [List.drop_succ_cons, List.drop_zero, List.find?]
    rw [show reversalPred ([exShiftA, exShiftB].getD 0 dfltShift) exShiftB = true from hp]
  exact ⟨⟨hch, hfind⟩,
    (wind_shift_classification_spec.2.2 exShifts hch 0 (by norm_num [exShifts])).1
      exShiftB hfind⟩

/-- Witness for windshift_no_transient: a lone shift is classified
persistent, in particular not transient. -/
theorem windshift_no_transient_witness :
    classifyOne dfltShift [] ∈ classifyShifts [dfltShift] ∧
    ((classifyOne dfltShift []).shiftType = "oscillating" ∨
      (classifyOne dfltShift []).shiftType = "persistent") :=
  ⟨List.mem_singleton_self _,
    windshift_no_transient.2 [dfltShift] _ (List.mem_singleton_self _)⟩

end RacePilot
